import Mathlib

/-!
Verification of the CGPA calculator (`src/app.py`).

The Python source is shallowly embedded: strings are `String` / `List Char`,
Python dicts become insertion-ordered association lists (`List (key × value)`)
with in-place update (`updateAssoc`) and first-match lookup (`alookup`), and
Python floats become `ℚ` (the credits and grade points occurring in the
program are decimal literals, exactly representable).

The regular-expression searches of the source are embedded as deterministic
character-run scanners.  Each scanner realizes the leftmost match of the
corresponding pattern under Python's backtracking semantics; the concrete
patterns of the source (digit/letter runs, fixed literals, greedy bounded
repetitions, one lazy group) admit such a direct description, which was
cross-validated against `re` on randomized inputs.
-/

/-! ## Character classes and elementary Python string operations -/

/-- Python `\s` (ASCII range, matching `str.strip` and `\s` on the inputs at hand). -/
def pySpace (c : Char) : Bool :=
  c = ' ' || c = '\t' || c = '\n' || c = '\r' || c = '\x0B' || c = '\x0C'

/-- Characters of the grade-token class `[OABCPFo+]`. -/
def gradeChar (c : Char) : Bool :=
  c = 'O' || c = 'A' || c = 'B' || c = 'C' || c = 'P' || c = 'F' || c = 'o' || c = '+'

/-- Python word character (`\w`), deciding `\b` boundaries. -/
def wordChar (c : Char) : Bool :=
  c.isAlphanum || c = '_'

/-- Python `str.strip()` on a character list. -/
def pyStripL (l : List Char) : List Char :=
  ((l.dropWhile pySpace).reverse.dropWhile pySpace).reverse

/-- Python `str.strip()`. -/
def pyStrip (s : String) : String :=
  String.mk (pyStripL s.data)

/-- Python `str.replace(" ", "")`: delete every space character. -/
def dropSpaces (l : List Char) : List Char :=
  l.filter (fun c => c != ' ')

/-- Python `str.lower()` (ASCII). -/
def pyLower (s : String) : String :=
  String.mk (s.data.map Char.toLower)

/-- Python `str.upper()` (ASCII). -/
def pyUpper (s : String) : String :=
  String.mk (s.data.map Char.toUpper)

/-- Python `str.isdigit()` on the ASCII inputs at hand: nonempty and all digits. -/
def pyIsdigit (s : String) : Bool :=
  s.data ≠ [] && s.data.all Char.isDigit

/-- Python substring containment `needle in hay`. -/
def isSubstr (needle hay : String) : Bool :=
  decide (needle.data <:+: hay.data)

/-- Python `str.split()` (split on whitespace runs, no empty items). -/
def splitWS : List Char → List (List Char)
  | [] => []
  | c :: cs =>
    if pySpace c then splitWS cs
    else (c :: cs.takeWhile (fun x => !pySpace x)) :: splitWS (cs.dropWhile (fun x => !pySpace x))
termination_by l => l.length
decreasing_by
  · simp only [List.length_cons]; omega
  · simp only [List.length_cons]
    exact Nat.lt_succ_of_le (List.dropWhile_sublist _).length_le

/-- Python `str.replace(old, new)` for nonempty `old`: replace the
non-overlapping occurrences left to right.  Fueled with the length of the
subject (each step consumes at least one character when `old` is nonempty). -/
def pyReplaceAux (old new : List Char) : Nat → List Char → List Char
  | 0, l => l
  | _ + 1, [] => []
  | fuel + 1, c :: cs =>
    if old ≠ [] ∧ old.isPrefixOf (c :: cs) then
      new ++ pyReplaceAux old new fuel ((c :: cs).drop old.length)
    else
      c :: pyReplaceAux old new fuel cs

/-- Python `str.replace(old, new)`. -/
def pyReplace (s old new : String) : String :=
  String.mk (pyReplaceAux old.data new.data s.data.length s.data)

/-! ## Association lists: Python dict semantics

Python dicts preserve insertion order; assigning to an existing key replaces
the value in place, assigning to a fresh key appends.  Iteration over a dict
visits keys in that order. -/

/-- First-match lookup (`d[k]` / `d.get(k)` / `k in d`). -/
def alookup {α β : Type _} [DecidableEq α] : List (α × β) → α → Option β
  | [], _ => none
  | (k, v) :: t, key => if k = key then some v else alookup t key

/-- Python dict assignment `d[k] = v`. -/
def updateAssoc {α β : Type _} [DecidableEq α] : List (α × β) → α → β → List (α × β)
  | [], key, v => [(key, v)]
  | (k, w) :: t, key, v => if k = key then (key, v) :: t else (k, w) :: updateAssoc t key v

/-- Iteration order of `for k in d`. -/
def akeys {α β : Type _} (m : List (α × β)) : List α :=
  m.map Prod.fst

/-! ## Fixed tables of the source -/

/-- The grade-point table `GRADE_POINTS` (src/app.py line 21). -/
def GRADE_POINTS : List (String × ℚ) :=
  [("O", 10), ("A+", 9), ("A", 8), ("B+", 7), ("B", 6), ("C", 5), ("P", 4), ("F", 0)]

/-- Keys of `DEPARTMENT_CODES` in their source order (src/app.py lines 23-42);
only the keys are consulted by the embedded functions. -/
def DEPARTMENT_CODES : List String :=
  ["CV", "ME", "ES", "EC", "IM", "CS", "ET", "IS", "EI", "MD",
   "CH", "BT", "AS", "AM", "DS", "DC", "AI", "BS"]

/-! ## Rounding

Python `round(x, n)` rounds half to even; the embedding performs the same
rounding on exact rationals. -/

/-- Round a rational to the nearest integer, half to even. -/
def roundHalfEven (q : ℚ) : ℤ :=
  let f : ℤ := ⌊q⌋
  let r : ℚ := q - f
  if r < 1/2 then f
  else if 1/2 < r then f + 1
  else if f % 2 = 0 then f else f + 1

/-- Python `round(q, n)`. -/
def roundTo (n : ℕ) (q : ℚ) : ℚ :=
  (roundHalfEven (q * 10 ^ n) : ℚ) / 10 ^ n

/-! ## Leftmost regex search -/

/-- Leftmost search: try the position matcher `f` at every start position of
the string, returning the first success (`re.search`). -/
def searchWith {α : Type _} (f : List Char → Option α) : List Char → Option α
  | [] => none
  | c :: cs =>
    match f (c :: cs) with
    | some r => some r
    | none => searchWith f cs

/-- Position matcher for `(\d+)([A-Za-z]+)(\d+)([A-Za-z]+)([A-Za-z0-9]+)`
(src/app.py line 86), returning `group(0)`.  The four leading groups are
forced to the maximal runs (shrinking any of them puts an incompatible
character class next); when no alphanumeric remains for the fifth group the
engine backtracks exactly one character out of the fourth. -/
def structTry5 (l : List Char) : Option (List Char) :=
  let d1 := l.takeWhile Char.isDigit
  let r1 := l.dropWhile Char.isDigit
  if d1 = [] then none else
  let l1 := r1.takeWhile Char.isAlpha
  let r2 := r1.dropWhile Char.isAlpha
  if l1 = [] then none else
  let d2 := r2.takeWhile Char.isDigit
  let r3 := r2.dropWhile Char.isDigit
  if d2 = [] then none else
  let l2 := r3.takeWhile Char.isAlpha
  let r4 := r3.dropWhile Char.isAlpha
  if l2 = [] then none else
  let a := r4.takeWhile Char.isAlphanum
  if a ≠ [] then some (d1 ++ l1 ++ d2 ++ l2 ++ a)
  else if 2 ≤ l2.length then some (d1 ++ l1 ++ d2 ++ l2)
  else none

/-- Position matcher for `(\d+)([A-Za-z]+)(\d+)([A-Za-z]+)` (src/app.py
line 92), returning the four groups (maximal runs). -/
def structTry4 (l : List Char) : Option (List Char × List Char × List Char × List Char) :=
  let d1 := l.takeWhile Char.isDigit
  let r1 := l.dropWhile Char.isDigit
  if d1 = [] then none else
  let l1 := r1.takeWhile Char.isAlpha
  let r2 := r1.dropWhile Char.isAlpha
  if l1 = [] then none else
  let d2 := r2.takeWhile Char.isDigit
  let r3 := r2.dropWhile Char.isDigit
  if d2 = [] then none else
  let l2 := r3.takeWhile Char.isAlpha
  if l2 = [] then none else
  some (d1, l1, d2, l2)

/-- `normalize_subject_code` (src/app.py lines 84-89): strip, delete spaces,
return the first structural match, else the cleaned code. -/
def normalize_subject_code (code : String) : String :=
  let c := dropSpaces (pyStripL code.data)
  match searchWith structTry5 c with
  | some m => String.mk m
  | none => String.mk c

/-- Worker for `extract_core_code_parts`: the four groups as one optional
tuple (the source returns four strings or four `None`s together). -/
def extractParts (code : String) : Option (String × String × String × String) :=
  match searchWith structTry4 code.data with
  | some (y, d, s, t) => some (String.mk y, String.mk d, String.mk s, String.mk t)
  | none => none

/-- `extract_core_code_parts` (src/app.py lines 91-99), with the source's
shape: four optional components. -/
def extract_core_code_parts (code : String) :
    Option String × Option String × Option String × Option String :=
  match extractParts code with
  | some (y, d, s, t) => (some y, some d, some s, some t)
  | none => (none, none, none, none)

/-! ## Scanners for the result-parser patterns -/

/-- Head test for `2\d[A-Za-z]{2}\d[A-Za-z]{2,7}` (boolean search: two
trailing letters suffice for existence of the bounded repetition). -/
def codeWBAt : List Char → Bool
  | '2' :: d :: a :: b :: e :: f :: g :: _ =>
    d.isDigit && a.isAlpha && b.isAlpha && e.isDigit && f.isAlpha && g.isAlpha
  | _ => false

/-- Scan for `\b2\d[A-Za-z]{2}\d[A-Za-z]{2,7}` carrying the previous
character for the word boundary. -/
def containsCodeWBAux : Option Char → List Char → Bool
  | _, [] => false
  | prev, c :: cs =>
    ((match prev with | none => true | some p => !wordChar p) && codeWBAt (c :: cs))
      || containsCodeWBAux (some c) cs

/-- Boolean search for `\b2\d[A-Za-z]{2}\d[A-Za-z]{2,7}` (src/app.py
lines 107, 122). -/
def containsCodeWB (s : String) : Bool :=
  containsCodeWBAux none s.data

/-- Position matcher for `(2\d[A-Za-z]{2}\d[A-Za-z]{2,7}[A-Za-z0-9]*)`,
returning the group and the remainder of the string after it (`match.end()`).
The bounded repetition greedily takes up to seven letters and the trailing
alphanumeric star absorbs the rest; no backtracking can succeed. -/
def codeMatchAt : List Char → Option (List Char × List Char)
  | '2' :: d :: a :: b :: e :: rest4 =>
    if d.isDigit && a.isAlpha && b.isAlpha && e.isDigit then
      let letters := rest4.takeWhile Char.isAlpha
      if letters.length < 2 then none
      else
        let tk := min letters.length 7
        let afterL := rest4.drop tk
        let alns := afterL.takeWhile Char.isAlphanum
        some ('2' :: d :: a :: b :: e :: (rest4.take tk ++ alns), afterL.drop alns.length)
    else none
  | _ => none

/-- Leftmost search for the subject-code group (src/app.py lines 111, 153,
194). -/
def findCode (l : List Char) : Option (List Char × List Char) :=
  searchWith codeMatchAt l

/-- Python `re.sub(r'\s+\d+.*$', '', s)`: truncate at the first whitespace
run that is immediately followed by a digit. -/
def truncName : List Char → List Char
  | [] => []
  | c :: cs =>
    if pySpace c &&
        (match (c :: cs).dropWhile pySpace with
         | d :: _ => d.isDigit
         | [] => false) then []
    else c :: truncName cs

/-- Matcher for `[0-9]+\s+([OABCPFo+]+)$` (src/app.py line 125): the maximal
trailing grade-character run, provided it is preceded by whitespace preceded
by a digit. -/
def gradeAfterDigits (l : List Char) : Option (List Char) :=
  let rev := l.reverse
  let g := rev.takeWhile gradeChar
  if g = [] then none
  else
    let r1 := rev.dropWhile gradeChar
    if r1.takeWhile pySpace = [] then none
    else
      match r1.dropWhile pySpace with
      | d :: _ => if d.isDigit then some g.reverse else none
      | [] => none

/-- Matcher for `([OABCPFo+]+)$` (src/app.py lines 133, 180, 197, 210): the
maximal trailing grade-character run. -/
def trailingGrade (l : List Char) : Option (List Char) :=
  let g := l.reverse.takeWhile gradeChar
  if g = [] then none else some g.reverse

/-- Match `\s+\d+` at the head, returning the remainder. -/
def wsThenDigits (l : List Char) : Option (List Char) :=
  if l.takeWhile pySpace = [] then none
  else
    let r := l.dropWhile pySpace
    if r.takeWhile Char.isDigit = [] then none
    else some (r.dropWhile Char.isDigit)

/-- Match `\s+\d+\s+\d+\s+\d+\s+([OABCPFo+]+)` at the head, returning the
grade group. -/
def tailNums (l : List Char) : Option (List Char) :=
  match wsThenDigits l with
  | none => none
  | some r1 =>
    match wsThenDigits r1 with
    | none => none
    | some r2 =>
      match wsThenDigits r2 with
      | none => none
      | some r3 =>
        if r3.takeWhile pySpace = [] then none
        else
          let g := (r3.dropWhile pySpace).takeWhile gradeChar
          if g = [] then none else some g

/-- Lazy expansion of `(.*?)`: the least number of characters consumed before
`tailNums` matches, with the matched grade group. -/
def lazyScan : List Char → Option (ℕ × List Char)
  | [] => none
  | c :: t =>
    match tailNums (c :: t) with
    | some g => some (0, g)
    | none => (lazyScan t).map (fun p => (p.1 + 1, p.2))

/-- Greedy retreat of the `\s+` separating the code group from the lazy name
group: widest whitespace prefix first. -/
def tryNameWidths (rest : List Char) : ℕ → Option (List Char × List Char)
  | 0 => none
  | w + 1 =>
    let afterW := rest.drop (w + 1)
    match lazyScan afterW with
    | some (q, g) => some (afterW.take q, g)
    | none => tryNameWidths rest w

/-- Position matcher for the structured grade pattern of src/app.py line 153:
`(code)\s+(.*?)\s+\d+\s+\d+\s+\d+\s+([OABCPFo+]+)`; returns code, name and
grade groups. -/
def structuredAt (l : List Char) : Option (List Char × List Char × List Char) :=
  match codeMatchAt l with
  | none => none
  | some (code, rest) =>
    match tryNameWidths rest (rest.takeWhile pySpace).length with
    | some (nm, g) => some (code, nm, g)
    | none => none

/-- Case-insensitive literal prefix test (`re.IGNORECASE`). -/
def ciPrefixOf : List Char → List Char → Bool
  | [], _ => true
  | _ :: _, [] => false
  | p :: ps, c :: cs => p.toLower = c.toLower && ciPrefixOf ps cs

/-- Match `\s+w₁\s+w₂...` case-insensitively at the head. -/
def wordsAt : List (List Char) → List Char → Bool
  | [], _ => true
  | w :: ws, l =>
    if l.takeWhile pySpace = [] then false
    else
      let r := l.dropWhile pySpace
      ciPrefixOf w r && wordsAt ws (r.drop w.length)

/-- Greedy countdown over the `[A-Za-z]{2,7}` width (at least two letters),
trying each alternative of the `(?:..|..)` group in order. -/
def tryAltWidths (s5 rest4 : List Char) (alts words : List (List Char)) :
    ℕ → Option (List Char)
  | 0 => none
  | 1 => none
  | k + 2 =>
    match alts.findSome? (fun alt =>
      if ciPrefixOf alt (rest4.drop (k + 2)) && wordsAt words (rest4.drop (k + 2 + alt.length))
      then some (s5 ++ rest4.take (k + 2 + alt.length)) else none) with
    | some r => some r
    | none => tryAltWidths s5 rest4 alts words (k + 1)

/-- Position matcher for the special-subject result patterns of src/app.py
lines 168-171, e.g. `(2\d[A-Za-z]{2}\d[A-Za-z]{2,7}(?:BFE|FBE))\s+
(Biology\s+for\s+Engineers)` with `re.IGNORECASE`; returns `group(1)`. -/
def specialAt (alts words : List (List Char)) : List Char → Option (List Char)
  | '2' :: d :: a :: b :: e :: rest4 =>
    if d.isDigit && a.isAlpha && b.isAlpha && e.isDigit then
      tryAltWidths ['2', d, a, b, e] rest4 alts words
        (min (rest4.takeWhile Char.isAlpha).length 7)
    else none
  | _ => none

/-! ## difflib `SequenceMatcher.ratio`

The strings compared are far below the autojunk threshold (200) and contain
no junk, so `find_longest_match` reduces to the longest common substring with
difflib's tie-break (first ending cell in (i, j) lexicographic order), and
the popular-element extension loops never fire. -/

/-- Length of the common prefix of two lists. -/
def commonPrefixLen : List Char → List Char → ℕ
  | a :: as, b :: bs => if a = b then commonPrefixLen as bs + 1 else 0
  | _, _ => 0

/-- Length of the common block ending at positions `i`, `j` (inclusive). -/
def suffLen (a b : List Char) (i j : ℕ) : ℕ :=
  commonPrefixLen (a.take (i + 1)).reverse (b.take (j + 1)).reverse

/-- difflib `find_longest_match` on full ranges: `(besti, bestj, bestsize)`,
keeping the first cell (in `i` then `j` order) attaining the maximal size. -/
def findLongestMatch (a b : List Char) : ℕ × ℕ × ℕ :=
  (List.range a.length).foldl (fun acc i =>
    (List.range b.length).foldl (fun acc j =>
      let k := suffLen a b i j
      if acc.2.2 < k then (i + 1 - k, j + 1 - k, k) else acc) acc) (0, 0, 0)

/-- Total size of difflib's matching blocks (the recursion of
`get_matching_blocks`), fueled by the summed lengths. -/
def totalMatched : ℕ → List Char → List Char → ℕ
  | 0, _, _ => 0
  | fuel + 1, a, b =>
    let m := findLongestMatch a b
    if m.2.2 = 0 then 0
    else
      m.2.2 + totalMatched fuel (a.take m.1) (b.take m.2.1)
        + totalMatched fuel (a.drop (m.1 + m.2.2)) (b.drop (m.2.1 + m.2.2))

/-- `SequenceMatcher(None, a, b).ratio()`: `2*M/T` on exact rationals,
`1` when both strings are empty (difflib's `_calculate_ratio`). -/
def similarity (a b : String) : ℚ :=
  let t := a.data.length + b.data.length
  if t = 0 then 1
  else 2 * (totalMatched t a.data b.data : ℚ) / (t : ℚ)

/-! ## Result parser (`parse_result_data`, src/app.py lines 101-222) -/

/-- The per-subject record stored by the result parser. -/
structure RRecord where
  name : String
  grade : String
  normalized_code : String
deriving DecidableEq

/-- Grade post-processing `.strip().upper().replace(" ", "")` applied to a
captured grade group. -/
def gradeClean (g : List Char) : String :=
  String.mk (dropSpaces ((pyStripL g).map Char.toUpper))

/-- Lookahead of src/app.py lines 130-136 and 207-219: the first of the next
two lines that ends in a grade run and is shorter than 20 characters. -/
def lookaheadGrade (lines : List String) (idx : ℕ) : Option String :=
  let tryAt : ℕ → Option String := fun j =>
    match lines.get? j with
    | some nl =>
      match trailingGrade nl.data with
      | some g => if nl.length < 20 then some (gradeClean g) else none
      | none => none
    | none => none
  match tryAt (idx + 1) with
  | some g => some g
  | none => tryAt (idx + 2)

/-- Body of the stage-1 loop of `parse_result_data` (src/app.py
lines 110-146) for one subject line. -/
def stage1Step (lines : List String) (subjIdxs : List ℕ)
    (subjects : List (String × RRecord)) (line_idx : ℕ) (line : String) :
    List (String × RRecord) :=
  match findCode line.data with
  | none => subjects
  | some (codeCs, restCs) =>
    let subject_code := pyStrip (String.mk codeCs)
    let remaining := pyStripL restCs
    let name0 := String.mk (pyStripL (truncName remaining))
    let subject_name :=
      if name0 = "" ∨ pyIsdigit name0 then
        if line_idx + 1 < lines.length ∧ (line_idx + 1) ∉ subjIdxs then
          match lines.get? (line_idx + 1) with
          | some nl => if !containsCodeWB nl then pyStrip nl else name0
          | none => name0
        else name0
      else name0
    let grade0 : Option String :=
      match gradeAfterDigits line.data with
      | some g => some (gradeClean g)
      | none => lookaheadGrade lines line_idx
    match grade0 with
    | some g0 =>
      let g := if g0 = "O+" then "O" else g0
      if (alookup GRADE_POINTS g).isSome then
        updateAssoc subjects subject_code
          ⟨subject_name, g, normalize_subject_code subject_code⟩
      else subjects
    | none => subjects

/-- Stage 1 of `parse_result_data`: the line-local scan over subject lines. -/
def resultStage1 (lines : List String) (subjectLines : List (ℕ × String))
    (subjIdxs : List ℕ) (subs : List (String × RRecord)) : List (String × RRecord) :=
  subjectLines.foldl (fun subjects p => stage1Step lines subjIdxs subjects p.1 p.2) subs

/-- Body of the stage-2 inner loop (src/app.py lines 151-164) for one line
following a `GRADES` marker. -/
def stage2Step (lines : List String) (sj : List (String × RRecord)) (j : ℕ) :
    List (String × RRecord) :=
  match lines.get? j with
  | some gl =>
    match searchWith structuredAt gl.data with
    | some (c, nm, gr) =>
      let code := pyStrip (String.mk c)
      let grade := gradeClean gr
      if (alookup GRADE_POINTS grade).isSome then
        updateAssoc sj code ⟨pyStrip (String.mk nm), grade, normalize_subject_code code⟩
      else sj
    | none => sj
  | none => sj

/-- Stage 2 of `parse_result_data` (src/app.py lines 149-164): structured
blocks after a line containing `GRADES`. -/
def resultStage2 (lines : List String) (subs : List (String × RRecord)) :
    List (String × RRecord) :=
  lines.enum.foldl (fun subjects p =>
    if isSubstr "GRADES" p.2 ∧ p.1 + 1 < lines.length then
      (List.range' (p.1 + 1) (min (p.1 + 20) lines.length - (p.1 + 1))).foldl
        (stage2Step lines) subjects
    else subjects) subs

/-- The special-subject patterns of src/app.py lines 167-172: code-suffix
alternatives, name words, and the canonical name recorded. -/
def specialResultPatterns : List (List String × List String × String) :=
  [ (["BFE", "FBE"], ["Biology", "for", "Engineers"], "Biology for Engineers"),
    (["ENV"], ["Environmental", "Studies"], "Environmental Studies"),
    (["CPH"], ["Constitution", "of", "India"], "Constitution of India"),
    (["MAT"], ["Mathematics"], "Mathematics") ]

/-- Stage 3 of `parse_result_data` (src/app.py lines 174-188): special
subject patterns, pattern-major over lines. -/
def resultStage3 (lines : List String) (subs : List (String × RRecord)) :
    List (String × RRecord) :=
  specialResultPatterns.foldl (fun subjects pat =>
    lines.foldl (fun sj line =>
      match searchWith (specialAt (pat.1.map String.data) (pat.2.1.map String.data)) line.data with
      | some codeCs =>
        let code := pyStrip (String.mk codeCs)
        match trailingGrade line.data with
        | some g =>
          let grade := gradeClean g
          if (alookup GRADE_POINTS grade).isSome then
            updateAssoc sj code ⟨pat.2.2, grade, normalize_subject_code code⟩
          else sj
        | none => sj
      | none => sj) subjects) subs

/-- Keywords of the stage-4 scan (src/app.py line 192). -/
def resultKeywords : List String :=
  ["Biology for Engineers", "Environmental Studies", "Constitution of India"]

/-- Stage 4 of `parse_result_data` (src/app.py lines 191-219): keyword scan
with grade recovery on the same line or the two following lines. -/
def resultStage4 (lines : List String) (subs : List (String × RRecord)) :
    List (String × RRecord) :=
  lines.enum.foldl (fun subjects p =>
    resultKeywords.foldl (fun sj keyword =>
      if isSubstr keyword p.2 then
        match findCode p.2.data with
        | some (codeCs, _) =>
          let code := pyStrip (String.mk codeCs)
          match trailingGrade p.2.data with
          | some g =>
            let grade := gradeClean g
            if (alookup GRADE_POINTS grade).isSome then
              updateAssoc sj code ⟨keyword, grade, normalize_subject_code code⟩
            else sj
          | none =>
            match lookaheadGrade lines p.1 with
            | some grade =>
              if (alookup GRADE_POINTS grade).isSome then
                updateAssoc sj code ⟨keyword, grade, normalize_subject_code code⟩
              else sj
            | none => sj
        | none => sj
      else sj) subjects) subs

/-- Python `text.split('\n')` on the character list: split at every newline,
keeping empty pieces (an empty text yields one empty line). -/
def splitLines : List Char → List (List Char)
  | [] => [[]]
  | c :: cs =>
    if c = '\n' then [] :: splitLines cs
    else
      match splitLines cs with
      | [] => [[c]]
      | w :: ws => (c :: w) :: ws

/-- `parse_result_data` (src/app.py lines 101-222). -/
def parse_result_data (result_text : String) : List (String × RRecord) :=
  let lines := (splitLines result_text.data).map String.mk
  let subjectLines := lines.enum.filter (fun p => containsCodeWB p.2)
  let subjIdxs := subjectLines.map Prod.fst
  resultStage4 lines (resultStage3 lines (resultStage2 lines
    (resultStage1 lines subjectLines subjIdxs [])))

/-! ## Matcher (`find_matching_code`, src/app.py lines 309-377) -/

/-- Python `name.lower().replace(" ", "")`. -/
def lowerNoSpace (s : String) : String :=
  String.mk (dropSpaces (pyLower s).data)

/-- The `special_keywords` table of src/app.py lines 329-335, in insertion
order. -/
def special_keywords : List (String × String) :=
  [("BFE", "Biology for Engineers"), ("FBE", "Biology for Engineers"),
   ("ENV", "Environmental Studies"), ("CPH", "Constitution of India"),
   ("MAT", "Mathematics")]

/-- Stage 2 of the matcher (lines 317-321): name lookup; falls through when
the mapped code is absent from `course_credits`. -/
def fmcStep2 (cc : List (String × ℚ)) (snm : List (String × String))
    (data : RRecord) : Option String :=
  match alookup snm (lowerNoSpace data.name) with
  | some mc => if (alookup cc mc).isSome then some mc else none
  | none => none

/-- Stage 3 of the matcher (lines 337-341): special-keyword containment. -/
def fmcStep3 (subject_code : String) (cc : List (String × ℚ))
    (data : RRecord) : Option String :=
  special_keywords.findSome? (fun kw =>
    if isSubstr kw.1 subject_code || isSubstr kw.2 data.name then
      (akeys cc).findSome? (fun code => if isSubstr kw.1 code then some code else none)
    else none)

/-- Stage 4 of the matcher (lines 344-350): same year and semester, first
name token contained in the course name.  The source indexes
`name.lower().split()[0]`, which presupposes a non-whitespace character in
the name; `headD []` stands in for the (unexercised) `IndexError` case. -/
def fmcStep4 (cc : List (String × ℚ)) (sn : List (String × String))
    (data : RRecord) (year sem : String) : Option String :=
  (akeys cc).findSome? (fun code =>
    match extractParts code with
    | some (y2, _, s2, _) =>
      if y2 = year ∧ s2 = sem then
        if data.name ≠ "" ∧ 3 < data.name.length then
          let search_term := String.mk ((splitWS (pyLower data.name).data).headD [])
          if isSubstr search_term (pyLower ((alookup sn code).getD "")) then some code
          else none
        else none
      else none
    | none => none)

/-- Stage 5 of the matcher (lines 353-356): containment of
`year ++ sem ++ type_code[:1]`. -/
def fmcStep5 (cc : List (String × ℚ)) (core : String) : Option String :=
  (akeys cc).findSome? (fun code => if isSubstr core code then some code else none)

/-- The fuzzy stage's fold (lines 359-366): over course codes containing the
semester digit, track the best similarity under strict improvement. -/
def fuzzyFold (cc : List (String × ℚ)) (normalized sem : String) :
    Option String × ℚ :=
  (akeys cc).foldl (fun acc code =>
    if isSubstr sem code then
      let r := similarity normalized code
      if acc.2 < r then (some code, r) else acc
    else acc) (none, 0)

/-- Stage 7 of the matcher (lines 372-375): first course code with the same
extracted semester. -/
def fmcStep7 (cc : List (String × ℚ)) (sem : String) : Option String :=
  (akeys cc).findSome? (fun code =>
    match extractParts code with
    | some (_, _, s2, _) => if s2 = sem then some code else none
    | none => none)

/-- `find_matching_code` (src/app.py lines 309-377).  The guard
`if not all([year, dept, sem, type_code])` coincides with failure of
`extract_core_code_parts`, whose groups are nonempty when present. -/
def find_matching_code (subject_code : String) (cc : List (String × ℚ))
    (sn : List (String × String)) (snm : List (String × String))
    (data : RRecord) : Option String :=
  let normalized_code := normalize_subject_code subject_code
  if (alookup cc normalized_code).isSome then some normalized_code
  else
    match fmcStep2 cc snm data with
    | some mc => some mc
    | none =>
      match extractParts normalized_code with
      | none => none
      | some (year, _dept, sem, type_code) =>
        match fmcStep3 subject_code cc data with
        | some c => some c
        | none =>
          match fmcStep4 cc sn data year sem with
          | some c => some c
          | none =>
            match fmcStep5 cc (year ++ sem ++ type_code.take 1) with
            | some c => some c
            | none =>
              let fz := fuzzyFold cc normalized_code sem
              if (1 : ℚ) / 2 < fz.2 then fz.1
              else fmcStep7 cc sem

/-! ## Combiner (`combine_data`, src/app.py lines 379-464) -/

/-- A combined per-subject record. -/
structure CEntry where
  name : String
  credit : ℚ
  grade : String
  grade_point : ℚ
  weighted_point : ℚ
deriving DecidableEq

/-- An unmatched subject of the first pass. -/
structure UEntry where
  code : String
  name : String
  grade : String
deriving DecidableEq

/-- Build a combined record (src/app.py lines 405-411 and the two copies in
the second-chance pass): `grade_point = GRADE_POINTS.get(grade, 0)` and
`weighted_point = credit * grade_point`. -/
def mkCEntry (name : String) (credit : ℚ) (grade : String) : CEntry :=
  ⟨name, credit, grade, (alookup GRADE_POINTS grade).getD 0,
   credit * (alookup GRADE_POINTS grade).getD 0⟩

/-- Python `name.isdigit() or not name or len(name) < 3`. -/
def badName (n : String) : Bool :=
  pyIsdigit n || n = "" || n.length < 3

/-- First pass of `combine_data` (lines 383-417) for one result record. -/
def combinePhase1Step (cc : List (String × ℚ)) (sn : List (String × String))
    (snm : List (String × String))
    (acc : List (String × CEntry) × List UEntry) (p : String × RRecord) :
    List (String × CEntry) × List UEntry :=
  let subject_code := p.1
  let data := p.2
  let normalized := data.normalized_code
  let cn : Option (ℚ × String) :=
    match alookup cc subject_code with
    | some cr => some (cr, data.name)
    | none =>
      match alookup cc normalized with
      | some cr => some (cr, data.name)
      | none =>
        match find_matching_code subject_code cc sn snm data with
        | some mc =>
          if mc = "" then none   -- Python truthiness of `if matching_code:`
          else
            -- `course_credits[matching_code]`: every code the matcher returns
            -- is a key of `course_credits`, so the default is unreachable.
            some ((alookup cc mc).getD 0,
              match alookup sn mc with
              | some nm => nm
              | none => data.name)
        | none => none
  match cn with
  | some (credit, nm0) =>
    let nm :=
      if (alookup sn subject_code).isSome ∧ badName nm0 then (alookup sn subject_code).getD ""
      else if (alookup sn normalized).isSome ∧ badName nm0 then (alookup sn normalized).getD ""
      else nm0
    (updateAssoc acc.1 subject_code (mkCEntry nm credit data.grade), acc.2)
  | none => (acc.1, acc.2 ++ [⟨subject_code, data.name, data.grade⟩])

/-- Keyword/pattern table of the second-chance pass (lines 425-430); the
regex alternations `BFE|FBE` etc. amount to substring disjunctions. -/
def unmatchedPatterns : List (String × List String) :=
  [("Biology", ["BFE", "FBE"]), ("Environment", ["ENV"]),
   ("Constitution", ["CPH"]), ("Math", ["MAT"])]

/-- Second-chance pass of `combine_data` (lines 421-461) for one unmatched
subject: special-keyword recovery, then semester+type recovery (which may
overwrite the former — the source runs both).  `type_code[0] == code_type[0]`
is compared via the length-one prefixes; both strings are nonempty where the
branch is reached. -/
def combinePhase2Step (cc : List (String × ℚ)) (sn : List (String × String))
    (combined : List (String × CEntry)) (u : UEntry) : List (String × CEntry) :=
  let c1 :=
    match unmatchedPatterns.findSome? (fun kp =>
      if isSubstr kp.1 u.name then
        ((akeys cc).filter (fun code => kp.2.any (fun pat => isSubstr pat code))).head?
      else none) with
    | some code =>
      updateAssoc combined u.code
        (mkCEntry ((alookup sn code).getD u.name) ((alookup cc code).getD 0) u.grade)
    | none => combined
  match extractParts u.code with
  | some (_, _, sem, type_code) =>
    match (akeys cc).findSome? (fun code =>
      match extractParts code with
      | some (_, _, s2, t2) =>
        if s2 = sem ∧ (type_code = t2 ∨ type_code.take 1 = t2.take 1) then some code
        else none
      | none => none) with
    | some code =>
      updateAssoc c1 u.code
        (mkCEntry ((alookup sn code).getD u.name) ((alookup cc code).getD 0) u.grade)
    | none => c1
  | none => c1

/-- `combine_data` (src/app.py lines 379-464). -/
def combine_data (subjects : List (String × RRecord)) (cc : List (String × ℚ))
    (sn : List (String × String)) (snm : List (String × String)) :
    List (String × CEntry) :=
  let phase1 := subjects.foldl (combinePhase1Step cc sn snm) ([], [])
  phase1.2.foldl (combinePhase2Step cc sn) phase1.1

/-! ## SGPA (`calculate_sgpa`, src/app.py lines 466-498) -/

/-- Input shape of `calculate_sgpa`: a per-subject dict whose `credit` key
may be absent (`"credit" not in data`). -/
structure SgpaEntry where
  name : String
  credit : Option ℚ
  grade : String
deriving DecidableEq

/-- An element of the `subject_points` list. -/
structure SubjPoint where
  code : String
  name : String
  credit : ℚ
  grade : String
  grade_point : ℚ
  weighted_point : ℚ
deriving DecidableEq

/-- The accumulation loop of `calculate_sgpa` (lines 471-490): subjects with
absent or zero credit are skipped; returns
`(subject_points, total_credits, weighted_sum)`. -/
def sgpaLoop : List (String × SgpaEntry) → List SubjPoint × ℚ × ℚ
  | [] => ([], 0, 0)
  | (code, e) :: rest =>
    match e.credit with
    | none => sgpaLoop rest
    | some cr =>
      if cr = 0 then sgpaLoop rest
      else
        let gp := (alookup GRADE_POINTS e.grade).getD 0
        let r := sgpaLoop rest
        (⟨code, e.name, cr, e.grade, gp, cr * gp⟩ :: r.1, cr + r.2.1, cr * gp + r.2.2)

/-- `calculate_sgpa` (src/app.py lines 466-498):
`(sgpa, subject_points, total_credits, weighted_sum)`. -/
def calculate_sgpa (subjects : List (String × SgpaEntry)) :
    ℚ × List SubjPoint × ℚ × ℚ :=
  let r := sgpaLoop subjects
  if r.2.1 ≤ 0 then (0, r.1, r.2.1, r.2.2)
  else (roundTo 2 (r.2.2 / r.2.1), r.1, r.2.1, r.2.2)

/-! ## CGPA (`calculate_cgpa`, src/app.py lines 500-545) -/

/-- A semester record as consumed by `calculate_cgpa`: the two numeric fields
it reads, the `cgpa` key it writes (absent on input), and the remaining dict
entries, which it never touches. -/
structure SemRecord where
  total_credits : ℚ
  total_points : ℚ
  cgpa : Option ℚ
  rest : List (String × String)
deriving DecidableEq

/-- Python `semester_data[sem_id]["cgpa"] = cgpa`: set the `cgpa` field of
the entry with the given key (which the source always possesses). -/
def setCgpa : List (ℕ × SemRecord) → ℕ → ℚ → List (ℕ × SemRecord)
  | [], _, _ => []
  | (k, d) :: t, key, c =>
    if k = key then (k, { d with cgpa := some c }) :: t else (k, d) :: setCgpa t key c

/-- Insertion step of `sorted(semester_data.items(), key=lambda x: x[0])`. -/
def insertSortedSem (x : ℕ × SemRecord) :
    List (ℕ × SemRecord) → List (ℕ × SemRecord)
  | [] => [x]
  | y :: t => if y.1 ≤ x.1 then y :: insertSortedSem x t else x :: y :: t

/-- Ascending sort by semester id (line 512; the source's keys are distinct
dict keys). -/
def sortSemesters (l : List (ℕ × SemRecord)) : List (ℕ × SemRecord) :=
  l.foldr insertSortedSem []

/-- The accumulation loop of `calculate_cgpa` (lines 514-529):
returns the final cumulative credits and points and the per-semester running
CGPA assignments in processing order. -/
def cgpaLoop : ℚ → ℚ → List (ℕ × SemRecord) → ℚ × ℚ × List (ℕ × ℚ)
  | cc, cp, [] => (cc, cp, [])
  | cc, cp, (k, d) :: rest =>
    let cc2 := cc + d.total_credits
    let cp2 := cp + d.total_points
    let cg := if 0 < cc2 then roundTo 2 (cp2 / cc2) else 0
    let r := cgpaLoop cc2 cp2 rest
    (r.1, r.2.1, (k, cg) :: r.2.2)

/-- `calculate_cgpa` (src/app.py lines 500-545):
`(overall_cgpa, semester_data_with_cgpa, summary)` where `summary` is
`(total_credits, total_points, max_possible_points, overall_percentage)`. -/
def calculate_cgpa (semester_data : List (ℕ × SemRecord)) :
    ℚ × List (ℕ × SemRecord) × (ℚ × ℚ × ℚ × ℚ) :=
  let r := cgpaLoop 0 0 (sortSemesters semester_data)
  let updated := r.2.2.foldl (fun m kc => setCgpa m kc.1 kc.2) semester_data
  let overall := if 0 < r.1 then roundTo 2 (r.2.1 / r.1) else 0
  (overall, updated,
    (roundTo 1 r.1, roundTo 1 r.2.1, roundTo 1 (r.1 * 10),
     if 0 < r.1 then roundTo 2 (r.2.1 / (r.1 * 10) * 100) else 0))

/-! ## Department aliasing of the course parser (src/app.py lines 285-304)

The aliasing step operates on the accepted-entry index built by the pattern
stages of `parse_course_data`; it is embedded as a function of that index. -/

/-- Inner loop of the aliasing step (lines 291-298) for one alternative
department code. -/
def aliasInner (code dept : String) (credit : ℚ) (name : String)
    (st : List (String × ℚ) × List (String × String)) (alt_dept : String) :
    List (String × ℚ) × List (String × String) :=
  if alt_dept ≠ dept then
    let alt_code := pyReplace code dept alt_dept
    let alt_norm := normalize_subject_code alt_code
    (updateAssoc (updateAssoc st.1 alt_code credit) alt_norm credit,
     updateAssoc (updateAssoc st.2 alt_code name) alt_norm name)
  else st

/-- Body of the aliasing loop (lines 286-298) for one snapshot code.  The
guard `if year and dept and sem` coincides with success of the extraction
(groups are nonempty); `course_credits[code]` is always present since keys
are never removed. -/
def aliasStep (st : List (String × ℚ) × List (String × String)) (code : String) :
    List (String × ℚ) × List (String × String) :=
  match extractParts code with
  | some (_, dept, _, _) =>
    let credit := (alookup st.1 code).getD 0
    let name := (alookup st.2 code).getD ""
    DEPARTMENT_CODES.foldl (aliasInner code dept credit name) st
  | none => st

/-- The department-aliasing step of `parse_course_data` (src/app.py
lines 285-298): iterate over a snapshot of the keys taken before the loop. -/
def generateAliases (course_credits : List (String × ℚ))
    (subject_names : List (String × String)) :
    List (String × ℚ) × List (String × String) :=
  (akeys course_credits).foldl aliasStep (course_credits, subject_names)

/-- The `subject_name_map` construction of `parse_course_data` (src/app.py
lines 301-304). -/
def buildNameMap (subject_names : List (String × String)) :
    List (String × String) :=
  subject_names.foldl (fun m p => updateAssoc m (lowerNoSpace p.2) p.1) []

/-! ## Generic lemmas: folds, association lists, character runs -/

theorem foldl_inv {α σ : Type _} {P : σ → Prop} (f : σ → α → σ) (l : List α)
    (h : ∀ s a, a ∈ l → P s → P (f s a)) :
    ∀ s, P s → P (l.foldl f s) := by
  induction l with
  | nil => intro s hs; simpa using hs
  | cons x xs ih =>
    intro s hs
    simp only [List.foldl_cons]
    exact ih (fun s a ha => h s a (List.mem_cons_of_mem _ ha)) _
      (h s x (List.mem_cons_self _ _) hs)

theorem alookup_mem {α β : Type _} [DecidableEq α] {m : List (α × β)} {k : α} {v : β}
    (h : alookup m k = some v) : (k, v) ∈ m := by
  induction m with
  | nil => simp [alookup] at h
  | cons p t ih =>
    obtain ⟨k', v'⟩ := p
    by_cases hk : k' = k
    · subst hk
      simp [alookup] at h
      subst h; exact List.mem_cons_self _ _
    · simp only [alookup, if_neg hk] at h
      exact List.mem_cons_of_mem _ (ih h)

theorem alookup_update_self {α β : Type _} [DecidableEq α] (m : List (α × β)) (k : α) (v : β) :
    alookup (updateAssoc m k v) k = some v := by
  induction m with
  | nil => simp [updateAssoc, alookup]
  | cons p t ih =>
    obtain ⟨k', v'⟩ := p
    by_cases hk : k' = k
    · simp [updateAssoc, hk, alookup]
    · simp [updateAssoc, hk, alookup, ih]

theorem alookup_update_ne {α β : Type _} [DecidableEq α] (m : List (α × β)) (k k' : α) (v : β)
    (h : k' ≠ k) : alookup (updateAssoc m k v) k' = alookup m k' := by
  induction m with
  | nil => simp [updateAssoc, alookup, Ne.symm h]
  | cons p t ih =>
    obtain ⟨k0, v0⟩ := p
    by_cases hk : k0 = k
    · subst hk
      simp [updateAssoc, alookup, Ne.symm h]
    · by_cases hk' : k0 = k'
      · simp [updateAssoc, hk, alookup, hk', h]
      · simp [updateAssoc, hk, alookup, hk', ih]

theorem mem_update_pred {α β : Type _} [DecidableEq α] {P : α × β → Prop}
    {m : List (α × β)} {k : α} {v : β}
    (hm : ∀ kv ∈ m, P kv) (hv : P (k, v)) :
    ∀ kv ∈ updateAssoc m k v, P kv := by
  induction m with
  | nil => simpa [updateAssoc] using hv
  | cons p t ih =>
    obtain ⟨k', v'⟩ := p
    by_cases hk : k' = k
    · subst hk
      simp only [updateAssoc, if_pos rfl]
      intro kv hkv
      rcases List.mem_cons.mp hkv with h | h
      · subst h; exact hv
      · exact hm _ (List.mem_cons_of_mem _ h)
    · simp only [updateAssoc, if_neg hk]
      intro kv hkv
      rcases List.mem_cons.mp hkv with h | h
      · subst h; exact hm _ (List.mem_cons_self _ _)
      · exact ih (fun kv h => hm kv (List.mem_cons_of_mem _ h)) _ h

theorem isSome_alookup_update {α β : Type _} [DecidableEq α] (m : List (α × β))
    (k k' : α) (v : β) (h : (alookup m k').isSome) :
    (alookup (updateAssoc m k v) k').isSome := by
  by_cases hk : k' = k
  · subst hk; simp [alookup_update_self]
  · rwa [alookup_update_ne _ _ _ _ hk]

theorem dropWhile_head_not {p : Char → Bool} {l : List Char}
    (h : ∀ c, l.head? = some c → p c = false) : l.dropWhile p = l := by
  cases l with
  | nil => rfl
  | cons x xs => simp [List.dropWhile, h x rfl]

theorem head?_dropWhile_not (p : Char → Bool) (l : List Char) :
    ∀ c, (l.dropWhile p).head? = some c → p c = false := by
  induction l with
  | nil => simp [List.dropWhile]
  | cons x xs ih =>
    intro c hc
    by_cases hx : p x
    · exact ih c (by simpa [List.dropWhile, hx] using hc)
    · simp only [List.dropWhile, hx, Bool.false_eq_true, if_false] at hc
      simp only [List.head?, Option.some.injEq] at hc
      subst hc
      simpa using hx

theorem takeWhile_run {p : Char → Bool} {xs ys : List Char}
    (h1 : ∀ c ∈ xs, p c = true) (h2 : ∀ c, ys.head? = some c → p c = false) :
    (xs ++ ys).takeWhile p = xs ∧ (xs ++ ys).dropWhile p = ys := by
  induction xs with
  | nil =>
    constructor
    · cases ys with
      | nil => rfl
      | cons y t => simp [List.takeWhile, h2 y rfl]
    · simpa using dropWhile_head_not h2
  | cons x t ih =>
    have hx : p x = true := h1 x (List.mem_cons_self _ _)
    have iht := ih (fun c hc => h1 c (List.mem_cons_of_mem _ hc))
    constructor
    · simp [List.takeWhile, hx, iht.1]
    · simp [List.dropWhile, hx, iht.2]

theorem searchWith_some {α : Type _} {f : List Char → Option α} {l : List Char} {r : α}
    (h : searchWith f l = some r) : ∃ l', l' <:+ l ∧ f l' = some r := by
  induction l with
  | nil => simp [searchWith] at h
  | cons c cs ih =>
    rw [searchWith] at h
    cases hf : f (c :: cs) with
    | some x =>
      rw [hf] at h
      have hx : x = r := by simpa using h
      exact ⟨c :: cs, List.suffix_refl _, by rw [hf, hx]⟩
    | none =>
      rw [hf] at h
      obtain ⟨l', hs, hl'⟩ := ih h
      exact ⟨l', hs.trans (List.suffix_cons _ _), hl'⟩

theorem searchWith_head {α : Type _} {f : List Char → Option α} {c : Char} {cs : List Char}
    {r : α} (h : f (c :: cs) = some r) : searchWith f (c :: cs) = some r := by
  unfold searchWith
  rw [h]

/-! ## Character-class facts -/

theorem alpha_not_digit {c : Char} (h : c.isAlpha = true) : c.isDigit = false := by
  simp only [Char.isAlpha, Char.isUpper, Char.isLower, Char.isDigit, Bool.or_eq_true,
    Bool.and_eq_true, decide_eq_true_eq, ge_iff_le] at h ⊢
  have h1 : ∀ a b : UInt32, (a ≤ b) ↔ (a.toNat ≤ b.toNat) := fun a b => Iff.rfl
  have e48 : (48 : UInt32).toNat = 48 := rfl
  have e57 : (57 : UInt32).toNat = 57 := rfl
  have e65 : (65 : UInt32).toNat = 65 := rfl
  have e90 : (90 : UInt32).toNat = 90 := rfl
  have e97 : (97 : UInt32).toNat = 97 := rfl
  have e122 : (122 : UInt32).toNat = 122 := rfl
  rw [Bool.and_eq_false_iff]
  simp only [decide_eq_false_iff_not, not_le, h1, e48, e57, e65, e90, e97, e122] at h ⊢
  omega

theorem digit_not_alpha {c : Char} (h : c.isDigit = true) : c.isAlpha = false := by
  by_cases ha : c.isAlpha = true
  · rw [alpha_not_digit ha] at h; exact absurd h (by simp)
  · simpa using ha

theorem digit_alnum {c : Char} (h : c.isDigit = true) : c.isAlphanum = true := by
  simp [Char.isAlphanum, h]

theorem alpha_alnum {c : Char} (h : c.isAlpha = true) : c.isAlphanum = true := by
  simp [Char.isAlphanum, h]

theorem alnum_not_pySpace {c : Char} (h : c.isAlphanum = true) : pySpace c = false := by
  simp only [pySpace, Bool.or_eq_false_iff, decide_eq_false_iff_not]
  refine ⟨⟨⟨⟨⟨?_, ?_⟩, ?_⟩, ?_⟩, ?_⟩, ?_⟩ <;>
    · rintro rfl; exact absurd h (by decide)

theorem alnum_ne_space {c : Char} (h : c.isAlphanum = true) : (c != ' ') = true := by
  rw [bne_iff_ne]
  rintro rfl; exact absurd h (by decide)

theorem head?_takeWhile {p : Char → Bool} {l : List Char} {c : Char}
    (h : (l.takeWhile p).head? = some c) : l.head? = some c := by
  cases l with
  | nil => simp [List.takeWhile] at h
  | cons x xs =>
    by_cases hx : p x
    · simp only [List.takeWhile, hx, List.head?] at h ⊢
      simpa using h
    · simp [List.takeWhile, hx] at h

theorem mem_takeWhile {p : Char → Bool} {l : List Char} {c : Char}
    (h : c ∈ l.takeWhile p) : p c = true := by
  induction l with
  | nil => simp [List.takeWhile] at h
  | cons x xs ih =>
    by_cases hx : p x
    · rw [List.takeWhile_cons, if_pos hx] at h
      rcases List.mem_cons.mp h with h | h
      · subst h; exact hx
      · exact ih h
    · rw [List.takeWhile_cons, if_neg hx] at h
      simp at h

/-! ## Structural-match lemmas -/

theorem structTry4_sound {l d1 l1 d2 l2 : List Char}
    (h : structTry4 l = some (d1, l1, d2, l2)) :
    d1 ≠ [] ∧ l1 ≠ [] ∧ d2 ≠ [] ∧ l2 ≠ [] := by
  simp only [structTry4] at h
  split_ifs at h with h1 h2 h3 h4
  simp only [Option.some.injEq, Prod.mk.injEq] at h
  obtain ⟨e1, e2, e3, e4⟩ := h
  subst e1; subst e2; subst e3; subst e4
  exact ⟨h1, h2, h3, h4⟩

theorem structTry5_sound {l m : List Char} (h : structTry5 l = some m) :
    ∃ d1 l1 d2 l2 a,
      m = d1 ++ l1 ++ d2 ++ l2 ++ a ∧
      d1 ≠ [] ∧ (∀ c ∈ d1, c.isDigit = true) ∧
      l1 ≠ [] ∧ (∀ c ∈ l1, c.isAlpha = true) ∧
      d2 ≠ [] ∧ (∀ c ∈ d2, c.isDigit = true) ∧
      l2 ≠ [] ∧ (∀ c ∈ l2, c.isAlpha = true) ∧
      ((a = [] ∧ 2 ≤ l2.length) ∨
        (a ≠ [] ∧ (∀ c ∈ a, c.isAlphanum = true) ∧
          ∀ c, a.head? = some c → c.isAlpha = false)) := by
  simp only [structTry5] at h
  split_ifs at h with h1 h2 h3 h4 h5 h6 <;>
    simp only [Option.some.injEq] at h
  · refine ⟨_, _, _, _, _, h.symm, h1, fun c hc => mem_takeWhile hc,
      h2, fun c hc => mem_takeWhile hc, h3, fun c hc => mem_takeWhile hc,
      h4, fun c hc => mem_takeWhile hc, Or.inr ⟨h5, fun c hc => mem_takeWhile hc, ?_⟩⟩
    intro c hc
    exact head?_dropWhile_not _ _ c (head?_takeWhile hc)
  · refine ⟨_, _, _, _, [], by rw [← h, List.append_nil], h1,
      fun c hc => mem_takeWhile hc, h2, fun c hc => mem_takeWhile hc,
      h3, fun c hc => mem_takeWhile hc, h4, fun c hc => mem_takeWhile hc,
      Or.inl ⟨rfl, h6⟩⟩

theorem head?_append_left {l l' : List Char} {c : Char} (h : l.head? = some c) :
    (l ++ l').head? = some c := by
  cases l with
  | nil => simp at h
  | cons x t => simpa using h

theorem takeWhile_all {p : Char → Bool} {l : List Char} (h : ∀ c ∈ l, p c = true) :
    l.takeWhile p = l := by
  have := (@takeWhile_run p l [] h (by simp)).1
  simpa using this

theorem structTry5_ifcore {d1 l1 d2 l2 a : List Char}
    (e1a : (d1 ++ l1 ++ d2 ++ l2 ++ a).takeWhile Char.isDigit = d1)
    (e1b : (d1 ++ l1 ++ d2 ++ l2 ++ a).dropWhile Char.isDigit = l1 ++ d2 ++ l2 ++ a)
    (e2a : (l1 ++ d2 ++ l2 ++ a).takeWhile Char.isAlpha = l1)
    (e2b : (l1 ++ d2 ++ l2 ++ a).dropWhile Char.isAlpha = d2 ++ l2 ++ a)
    (e3a : (d2 ++ l2 ++ a).takeWhile Char.isDigit = d2)
    (e3b : (d2 ++ l2 ++ a).dropWhile Char.isDigit = l2 ++ a)
    (e4a : (l2 ++ a).takeWhile Char.isAlpha = l2)
    (e4b : (l2 ++ a).dropWhile Char.isAlpha = a)
    (e5 : a.takeWhile Char.isAlphanum = a)
    (hd1 : d1 ≠ []) (hl1 : l1 ≠ []) (hd2 : d2 ≠ []) (hl2 : l2 ≠ [])
    (ha : (a = [] ∧ 2 ≤ l2.length) ∨ a ≠ []) :
    structTry5 (d1 ++ l1 ++ d2 ++ l2 ++ a) = some (d1 ++ l1 ++ d2 ++ l2 ++ a) := by
  simp only [structTry5, e1a, e1b, e2a, e2b, e3a, e3b, e4a, e4b, e5]
  rw [if_neg hd1, if_neg hl1, if_neg hd2, if_neg hl2]
  rcases ha with ⟨rfl, hlen⟩ | hne
  · rw [if_neg (by simp), if_pos hlen]; simp
  · rw [if_pos hne]

theorem structTry5_self {d1 l1 d2 l2 a : List Char}
    (hd1 : d1 ≠ []) (hd1d : ∀ c ∈ d1, c.isDigit = true)
    (hl1 : l1 ≠ []) (hl1a : ∀ c ∈ l1, c.isAlpha = true)
    (hd2 : d2 ≠ []) (hd2d : ∀ c ∈ d2, c.isDigit = true)
    (hl2 : l2 ≠ []) (hl2a : ∀ c ∈ l2, c.isAlpha = true)
    (ha : (a = [] ∧ 2 ≤ l2.length) ∨ (a ≠ [] ∧ (∀ c ∈ a, c.isAlphanum = true) ∧
      ∀ c, a.head? = some c → c.isAlpha = false)) :
    structTry5 (d1 ++ l1 ++ d2 ++ l2 ++ a) = some (d1 ++ l1 ++ d2 ++ l2 ++ a) := by
  have hh1 : ∀ c, (l1 ++ d2 ++ l2 ++ a).head? = some c → Char.isDigit c = false := by
    intro c hc
    cases l1 with
    | nil => exact absurd rfl hl1
    | cons x t =>
      simp only [List.cons_append, List.head?, Option.some.injEq] at hc
      subst hc
      exact alpha_not_digit (hl1a _ (List.mem_cons_self _ _))
  have hh2 : ∀ c, (d2 ++ l2 ++ a).head? = some c → Char.isAlpha c = false := by
    intro c hc
    cases d2 with
    | nil => exact absurd rfl hd2
    | cons x t =>
      simp only [List.cons_append, List.head?, Option.some.injEq] at hc
      subst hc
      exact digit_not_alpha (hd2d _ (List.mem_cons_self _ _))
  have hh3 : ∀ c, (l2 ++ a).head? = some c → Char.isDigit c = false := by
    intro c hc
    cases l2 with
    | nil => exact absurd rfl hl2
    | cons x t =>
      simp only [List.cons_append, List.head?, Option.some.injEq] at hc
      subst hc
      exact alpha_not_digit (hl2a _ (List.mem_cons_self _ _))
  have hh4 : ∀ c, a.head? = some c → Char.isAlpha c = false := by
    rcases ha with ⟨rfl, _⟩ | ⟨_, _, h⟩
    · simp
    · exact h
  have e1 := takeWhile_run hd1d hh1
  have e2 := takeWhile_run hl1a hh2
  have e3 := takeWhile_run hd2d hh3
  have e4 := takeWhile_run hl2a hh4
  have e5 : a.takeWhile Char.isAlphanum = a := by
    rcases ha with ⟨rfl, _⟩ | ⟨_, hall, _⟩
    · rfl
    · exact takeWhile_all hall
  refine structTry5_ifcore (by simpa [List.append_assoc] using e1.1)
    (by simpa [List.append_assoc] using e1.2) (by simpa [List.append_assoc] using e2.1)
    (by simpa [List.append_assoc] using e2.2) (by simpa [List.append_assoc] using e3.1)
    (by simpa [List.append_assoc] using e3.2) e4.1 e4.2 e5 hd1 hl1 hd2 hl2 ?_
  rcases ha with ⟨rfl, hlen⟩ | ⟨hne, _, _⟩
  · exact Or.inl ⟨rfl, hlen⟩
  · exact Or.inr hne

theorem structTry5_match_self {l m : List Char} (h : structTry5 l = some m) :
    structTry5 m = some m ∧ (∀ c ∈ m, c.isAlphanum = true) ∧ m ≠ [] := by
  obtain ⟨d1, l1, d2, l2, a, hm, hd1, hd1d, hl1, hl1a, hd2, hd2d, hl2, hl2a, ha⟩ :=
    structTry5_sound h
  subst hm
  refine ⟨structTry5_self hd1 hd1d hl1 hl1a hd2 hd2d hl2 hl2a ha, ?_, ?_⟩
  · intro c hc
    simp only [List.mem_append] at hc
    rcases hc with ((((hc | hc) | hc) | hc) | hc)
    · exact digit_alnum (hd1d _ hc)
    · exact alpha_alnum (hl1a _ hc)
    · exact digit_alnum (hd2d _ hc)
    · exact alpha_alnum (hl2a _ hc)
    · rcases ha with ⟨rfl, _⟩ | ⟨_, hall, _⟩
      · simp at hc
      · exact hall _ hc
  · cases d1 with
    | nil => exact absurd rfl hd1
    | cons x t => simp

/-! ## Idempotence of the cleaning steps -/

theorem pyStripL_eq_self {l : List Char}
    (h1 : ∀ c, l.head? = some c → pySpace c = false)
    (h2 : ∀ c, l.reverse.head? = some c → pySpace c = false) : pyStripL l = l := by
  unfold pyStripL
  rw [dropWhile_head_not h1, dropWhile_head_not h2, List.reverse_reverse]

theorem reverse_pyStripL_head {l : List Char} :
    ∀ c, (pyStripL l).reverse.head? = some c → pySpace c = false := by
  intro c hc
  unfold pyStripL at hc
  rw [List.reverse_reverse] at hc
  exact head?_dropWhile_not _ _ _ hc

theorem head?_pyStripL {l : List Char} :
    ∀ c, (pyStripL l).head? = some c → pySpace c = false := by
  intro c hc
  have hA : l.dropWhile pySpace =
      pyStripL l ++ ((l.dropWhile pySpace).reverse.takeWhile pySpace).reverse := by
    unfold pyStripL
    conv_lhs => rw [← List.reverse_reverse (l.dropWhile pySpace),
      ← List.takeWhile_append_dropWhile (p := pySpace)
        (l := (l.dropWhile pySpace).reverse)]
    rw [List.reverse_append]
  cases hm : pyStripL l with
  | nil => rw [hm] at hc; simp at hc
  | cons x t =>
    rw [hm] at hc hA
    have hxc : x = c := by simpa using hc
    have hx := head?_dropWhile_not pySpace l x (by rw [hA]; rfl)
    rwa [hxc] at hx

theorem head?_dropSpaces {S : List Char}
    (hS : ∀ c, S.head? = some c → pySpace c = false) :
    ∀ c, (dropSpaces S).head? = some c → pySpace c = false := by
  cases S with
  | nil => simp [dropSpaces]
  | cons x t =>
    have hx := hS x rfl
    have hxs : (x != ' ') = true := by
      rw [bne_iff_ne]
      rintro rfl
      simp [pySpace] at hx
    intro c hc
    rw [dropSpaces, List.filter_cons, if_pos hxs] at hc
    simp only [List.head?, Option.some.injEq] at hc
    subst hc
    exact hx

theorem dropSpaces_reverse (S : List Char) :
    (dropSpaces S).reverse = dropSpaces S.reverse := by
  simp [dropSpaces, List.filter_reverse]

theorem dropSpaces_idem (S : List Char) : dropSpaces (dropSpaces S) = dropSpaces S := by
  apply List.filter_eq_self.mpr
  intro a ha
  exact (List.mem_filter.mp ha).2

theorem clean_idem (l : List Char) :
    dropSpaces (pyStripL (dropSpaces (pyStripL l))) = dropSpaces (pyStripL l) := by
  rw [pyStripL_eq_self (head?_dropSpaces head?_pyStripL) ?_, dropSpaces_idem]
  intro c hc
  rw [dropSpaces_reverse] at hc
  exact head?_dropSpaces reverse_pyStripL_head c hc

theorem clean_of_alnum {m : List Char} (h : ∀ c ∈ m, c.isAlphanum = true) :
    dropSpaces (pyStripL m) = m := by
  have hs : pyStripL m = m := by
    apply pyStripL_eq_self
    · intro c hc
      cases m with
      | nil => simp at hc
      | cons x t =>
        simp only [List.head?, Option.some.injEq] at hc
        subst hc
        exact alnum_not_pySpace (h _ (List.mem_cons_self _ _))
    · intro c hc
      have hmem : c ∈ m := by
        have := List.mem_reverse.mp (List.mem_of_mem_head? hc)
        exact this
      exact alnum_not_pySpace (h _ hmem)
  rw [hs]
  apply List.filter_eq_self.mpr
  intro a ha
  exact alnum_ne_space (h _ ha)

theorem mk_ne_empty {l : List Char} (h : l ≠ []) : String.mk l ≠ "" := by
  intro he
  apply h
  simpa using congrArg String.data he

/-- C6 (amended): `normalize_subject_code` is idempotent, and when the
structural grammar matches nowhere in the cleaned code it returns the
whitespace-stripped, space-deleted input — not the input verbatim. -/
theorem normalize_subject_code_idem (code : String) :
    normalize_subject_code (normalize_subject_code code) = normalize_subject_code code ∧
    (searchWith structTry5 (dropSpaces (pyStripL code.data)) = none →
      normalize_subject_code code = String.mk (dropSpaces (pyStripL code.data))) := by
  constructor
  · cases hs : searchWith structTry5 (dropSpaces (pyStripL code.data)) with
    | some m =>
      have h1 : normalize_subject_code code = String.mk m := by
        simp only [normalize_subject_code, hs]
      obtain ⟨l', _, hmatch⟩ := searchWith_some hs
      obtain ⟨hself, halnum, hne⟩ := structTry5_match_self hmatch
      rw [h1]
      simp only [normalize_subject_code]
      rw [clean_of_alnum halnum]
      cases m with
      | nil => exact absurd rfl hne
      | cons c cs => rw [searchWith_head hself]
    | none =>
      have h1 : normalize_subject_code code = String.mk (dropSpaces (pyStripL code.data)) := by
        simp only [normalize_subject_code, hs]
      rw [h1]
      simp only [normalize_subject_code]
      rw [clean_idem, hs]
  · intro h
    simp only [normalize_subject_code, h]

/-- C6 counterexample: the structural grammar matches nowhere in `" a"`
(nor in its cleaned form), yet `normalize_subject_code` returns `"a"`,
which differs from the input — the pass-through is not verbatim. -/
theorem normalize_subject_code_strips :
    searchWith structTry5 (" a").data = none ∧
    searchWith structTry5 (dropSpaces (pyStripL (" a").data)) = none ∧
    normalize_subject_code " a" = "a" ∧ (" a" : String) ≠ "a" := by
  refine ⟨by decide, by decide, ?_, by decide⟩
  decide

/-- C6 witness: idempotence at `"23CS3AB"` and stripped pass-through at
`" a"`. -/
theorem normalize_subject_code_idem_witness :
    normalize_subject_code (normalize_subject_code "23CS3AB") =
      normalize_subject_code "23CS3AB" ∧
    normalize_subject_code " a" = String.mk (dropSpaces (pyStripL (" a").data)) :=
  ⟨(normalize_subject_code_idem "23CS3AB").1,
   (normalize_subject_code_idem " a").2 (by decide)⟩

theorem extractParts_nonempty {code : String} {y d s t : String}
    (h : extractParts code = some (y, d, s, t)) :
    y ≠ "" ∧ d ≠ "" ∧ s ≠ "" ∧ t ≠ "" := by
  unfold extractParts at h
  cases hs : searchWith structTry4 code.data with
  | none => rw [hs] at h; exact absurd h (by simp)
  | some g =>
    obtain ⟨d1, l1, d2, l2⟩ := g
    rw [hs] at h
    simp only [Option.some.injEq, Prod.mk.injEq] at h
    obtain ⟨e1, e2, e3, e4⟩ := h
    obtain ⟨l', _, hmatch⟩ := searchWith_some hs
    obtain ⟨h1, h2, h3, h4⟩ := structTry4_sound hmatch
    exact ⟨e1 ▸ mk_ne_empty h1, e2 ▸ mk_ne_empty h2, e3 ▸ mk_ne_empty h3,
      e4 ▸ mk_ne_empty h4⟩

/-- C9: `extract_core_code_parts` yields four non-empty components or four
`none`s, never a mixture; consequently, whenever the extracted semester is
present the type component is a non-empty string, so taking its first
character (as `combine_data`'s semester+type pass does) is safe. -/
theorem extract_core_code_parts_dichotomy (code : String) :
    ((∃ y d s t, extract_core_code_parts code = (some y, some d, some s, some t) ∧
        y ≠ "" ∧ d ≠ "" ∧ s ≠ "" ∧ t ≠ "") ∨
      extract_core_code_parts code = (none, none, none, none)) ∧
    ((extract_core_code_parts code).2.2.1 ≠ none →
      ∃ t, (extract_core_code_parts code).2.2.2 = some t ∧ t ≠ "") := by
  have main :
      (∃ y d s t, extract_core_code_parts code = (some y, some d, some s, some t) ∧
        y ≠ "" ∧ d ≠ "" ∧ s ≠ "" ∧ t ≠ "") ∨
      extract_core_code_parts code = (none, none, none, none) := by
    cases hx : extractParts code with
    | none => exact Or.inr (by simp [extract_core_code_parts, hx])
    | some g =>
      obtain ⟨y, d, s, t⟩ := g
      obtain ⟨h1, h2, h3, h4⟩ := extractParts_nonempty hx
      exact Or.inl ⟨y, d, s, t, by simp [extract_core_code_parts, hx], h1, h2, h3, h4⟩
  refine ⟨main, ?_⟩
  intro hsem
  rcases main with ⟨y, d, s, t, he, _, _, _, ht⟩ | he
  · rw [he]
    exact ⟨t, rfl, ht⟩
  · rw [he] at hsem
    simp at hsem

/-- C9 witness: concrete success at `"23CS3ABC"`. -/
theorem extract_core_code_parts_dichotomy_witness :
    ∃ t, (extract_core_code_parts "23CS3ABC").2.2.2 = some t ∧ t ≠ "" :=
  (extract_core_code_parts_dichotomy "23CS3ABC").2 (by decide)

/-! ## SGPA: specification-level description and claims C2, C8 -/

/-- Spec-side: the subjects `calculate_sgpa` includes (credit present and
nonzero). -/
def sgpaIncluded (subjects : List (String × SgpaEntry)) : List (String × SgpaEntry) :=
  subjects.filter (fun p => decide (p.2.credit ≠ none ∧ p.2.credit ≠ some 0))

/-- Spec-side: the per-subject point record. -/
def specPoint (p : String × SgpaEntry) : SubjPoint :=
  let cr := p.2.credit.getD 0
  let gp := (alookup GRADE_POINTS p.2.grade).getD 0
  ⟨p.1, p.2.name, cr, p.2.grade, gp, cr * gp⟩

/-- Spec-side: total credits of the included subjects. -/
def specTotalCredits (subjects : List (String × SgpaEntry)) : ℚ :=
  ((sgpaIncluded subjects).map (fun p => p.2.credit.getD 0)).sum

/-- Spec-side: weighted sum of the included subjects. -/
def specWeightedSum (subjects : List (String × SgpaEntry)) : ℚ :=
  ((sgpaIncluded subjects).map
    (fun p => p.2.credit.getD 0 * (alookup GRADE_POINTS p.2.grade).getD 0)).sum

theorem sgpaLoop_spec (subjects : List (String × SgpaEntry)) :
    sgpaLoop subjects =
      ((sgpaIncluded subjects).map specPoint, specTotalCredits subjects,
        specWeightedSum subjects) := by
  induction subjects with
  | nil => rfl
  | cons p rest ih =>
    obtain ⟨code, e⟩ := p
    cases he : e.credit with
    | none =>
      simp only [sgpaLoop, he, ih, sgpaIncluded, specTotalCredits, specWeightedSum,
        List.filter_cons]
      simp [he]
    | some cr =>
      by_cases h0 : cr = 0
      · subst h0
        simp only [sgpaLoop, he, if_pos rfl, ih, sgpaIncluded, specTotalCredits,
          specWeightedSum, List.filter_cons]
        simp [he]
      · simp only [sgpaLoop, he, if_neg h0, ih, sgpaIncluded, specTotalCredits,
          specWeightedSum, List.filter_cons]
        simp [he, h0, specPoint]

theorem specTotalCredits_nonneg (subjects : List (String × SgpaEntry))
    (hnn : ∀ p ∈ subjects, ∀ q, p.2.credit = some q → 0 ≤ q) :
    0 ≤ specTotalCredits subjects := by
  apply List.sum_nonneg
  intro x hx
  obtain ⟨p, hp, he⟩ := List.mem_map.mp hx
  have hpm := List.mem_filter.mp hp
  have := hpm.2
  simp only [decide_eq_true_eq] at this
  cases hc : p.2.credit with
  | none => exact absurd hc this.1
  | some q =>
    rw [← he, hc]
    exact hnn p hpm.1 q hc

theorem sgpaIncluded_nil_of_zero (subjects : List (String × SgpaEntry))
    (hnn : ∀ p ∈ subjects, ∀ q, p.2.credit = some q → 0 ≤ q)
    (hz : specTotalCredits subjects = 0) : sgpaIncluded subjects = [] := by
  by_contra hne
  cases hl : sgpaIncluded subjects with
  | nil => exact hne hl
  | cons p rest =>
    have hp : p ∈ sgpaIncluded subjects := by rw [hl]; exact List.mem_cons_self _ _
    have hpm := List.mem_filter.mp hp
    have hcond := hpm.2
    simp only [decide_eq_true_eq] at hcond
    cases hc : p.2.credit with
    | none => exact absurd hc hcond.1
    | some q =>
      have hq0 : q ≠ 0 := by
        intro h; exact hcond.2 (by rw [hc, h])
      have hqpos : 0 < q := lt_of_le_of_ne (hnn p hpm.1 q hc) (Ne.symm hq0)
      have hrest : 0 ≤ (rest.map (fun p => p.2.credit.getD 0)).sum := by
        apply List.sum_nonneg
        intro x hx
        obtain ⟨r, hr, he⟩ := List.mem_map.mp hx
        have hrmem : r ∈ sgpaIncluded subjects := by
          rw [hl]; exact List.mem_cons_of_mem _ hr
        have hrm := List.mem_filter.mp hrmem
        have hrcond := hrm.2
        simp only [decide_eq_true_eq] at hrcond
        cases hrc : r.2.credit with
        | none => exact absurd hrc hrcond.1
        | some qq => rw [← he, hrc]; exact hnn r hrm.1 qq hrc
      have : specTotalCredits subjects = q + (rest.map (fun p => p.2.credit.getD 0)).sum := by
        rw [specTotalCredits, hl, List.map_cons, List.sum_cons, hc]
        rfl
      rw [this] at hz
      nlinarith

/-- C2: `calculate_sgpa` skips subjects whose credit is missing or zero,
returns exactly `(0, [], 0, 0)` when the included total credits is zero
(in particular on the empty mapping), and otherwise returns the weighted
mean rounded to two decimals — the division is only taken with a positive
denominator.  Credits are non-negative (they are parsed from unsigned
decimal literals). -/
theorem calculate_sgpa_spec (subjects : List (String × SgpaEntry))
    (hnn : ∀ p ∈ subjects, ∀ q, p.2.credit = some q → 0 ≤ q) :
    calculate_sgpa subjects =
      (if specTotalCredits subjects = 0 then 0
        else roundTo 2 (specWeightedSum subjects / specTotalCredits subjects),
       (sgpaIncluded subjects).map specPoint,
       specTotalCredits subjects, specWeightedSum subjects) ∧
    (specTotalCredits subjects = 0 →
      calculate_sgpa subjects = (0, [], 0, 0)) := by
  have hnonneg := specTotalCredits_nonneg subjects hnn
  have hcalc : calculate_sgpa subjects =
      (if specTotalCredits subjects = 0 then 0
        else roundTo 2 (specWeightedSum subjects / specTotalCredits subjects),
       (sgpaIncluded subjects).map specPoint,
       specTotalCredits subjects, specWeightedSum subjects) := by
    rw [calculate_sgpa, sgpaLoop_spec]
    by_cases hz : specTotalCredits subjects = 0
    · rw [if_pos (le_of_eq hz), if_pos hz]
    · rw [if_neg (by intro hle; exact hz (le_antisymm hle hnonneg)), if_neg hz]
  refine ⟨hcalc, ?_⟩
  intro hz
  have hnil := sgpaIncluded_nil_of_zero subjects hnn hz
  have hws : specWeightedSum subjects = 0 := by simp [specWeightedSum, hnil]
  rw [hcalc, if_pos hz, hnil, hws, hz]
  simp

/-- C2 witness: a two-subject computation and the empty mapping. -/
theorem calculate_sgpa_spec_witness :
    calculate_sgpa [("a", ⟨"A", some 4, "A"⟩), ("b", ⟨"B", some 3, "O"⟩)] =
      (roundTo 2 (62 / 7),
       [specPoint ("a", ⟨"A", some 4, "A"⟩), specPoint ("b", ⟨"B", some 3, "O"⟩)], 7, 62) ∧
    calculate_sgpa ([] : List (String × SgpaEntry)) = (0, [], 0, 0) := by
  constructor
  · have h := (calculate_sgpa_spec [("a", ⟨"A", some 4, "A"⟩), ("b", ⟨"B", some 3, "O"⟩)]
      (by
        rintro p hp q hq
        fin_cases hp <;>
          · simp only [Option.some.injEq] at hq
            rw [← hq]
            norm_num)).1
    have hincl : sgpaIncluded
        [("a", ⟨"A", some 4, "A"⟩), ("b", ⟨"B", some 3, "O"⟩)] =
        [("a", ⟨"A", some 4, "A"⟩), ("b", ⟨"B", some 3, "O"⟩)] := by
      decide
    have htc : specTotalCredits
        [("a", ⟨"A", some 4, "A"⟩), ("b", ⟨"B", some 3, "O"⟩)] = 7 := by
      rw [specTotalCredits, hincl]
      norm_num
    have hws : specWeightedSum
        [("a", ⟨"A", some 4, "A"⟩), ("b", ⟨"B", some 3, "O"⟩)] = 62 := by
      rw [specWeightedSum, hincl]
      have hA : alookup GRADE_POINTS "A" = some 8 := by decide
      have hO : alookup GRADE_POINTS "O" = some 10 := by decide
      simp only [List.map_cons, List.map_nil, List.sum_cons, List.sum_nil, hA, hO,
        Option.getD_some]
      norm_num
    rw [h, htc, hws, if_neg (by norm_num), hincl]
    simp
  · exact (calculate_sgpa_spec [] (by simp)).2 rfl

/-- C8: `calculate_sgpa` is invariant under permutation of the input
subjects in its sgpa, total-credits and weighted-sum components. -/
theorem calculate_sgpa_perm (l1 l2 : List (String × SgpaEntry)) (h : l1.Perm l2) :
    (calculate_sgpa l1).1 = (calculate_sgpa l2).1 ∧
    (calculate_sgpa l1).2.2.1 = (calculate_sgpa l2).2.2.1 ∧
    (calculate_sgpa l1).2.2.2 = (calculate_sgpa l2).2.2.2 := by
  have htc : specTotalCredits l1 = specTotalCredits l2 :=
    ((h.filter _).map _).sum_eq
  have hws : specWeightedSum l1 = specWeightedSum l2 :=
    ((h.filter _).map _).sum_eq
  have comp : ∀ l : List (String × SgpaEntry),
      calculate_sgpa l =
        (if specTotalCredits l ≤ 0 then 0
          else roundTo 2 (specWeightedSum l / specTotalCredits l),
         (sgpaIncluded l).map specPoint, specTotalCredits l, specWeightedSum l) := by
    intro l
    simp only [calculate_sgpa, sgpaLoop_spec]
    by_cases hle : specTotalCredits l ≤ 0 <;> simp [hle]
  rw [comp l1, comp l2]
  simp only [htc, hws]
  simp

/-- C8 witness: a transposition of two subjects. -/
theorem calculate_sgpa_perm_witness :
    (calculate_sgpa [("a", ⟨"A", some 4, "A"⟩), ("b", ⟨"B", some 3, "O"⟩)]).1 =
    (calculate_sgpa [("b", ⟨"B", some 3, "O"⟩), ("a", ⟨"A", some 4, "A"⟩)]).1 :=
  (calculate_sgpa_perm _ _ (List.Perm.swap _ _ _)).1

/-! ## CGPA: sortedness, cumulative sums, frame (claims C3, C10) -/

/-- Spec-side: cumulative credits of the first `n` processed semesters. -/
def cumCredits (s : List (ℕ × SemRecord)) (n : ℕ) : ℚ :=
  ((s.take n).map (fun p => p.2.total_credits)).sum

/-- Spec-side: cumulative points of the first `n` processed semesters. -/
def cumPoints (s : List (ℕ × SemRecord)) (n : ℕ) : ℚ :=
  ((s.take n).map (fun p => p.2.total_points)).sum

theorem insertSortedSem_perm (x : ℕ × SemRecord) (l : List (ℕ × SemRecord)) :
    (insertSortedSem x l).Perm (x :: l) := by
  induction l with
  | nil => exact List.Perm.refl _
  | cons y t ih =>
    rw [insertSortedSem]
    by_cases hy : y.1 ≤ x.1
    · rw [if_pos hy]
      exact (ih.cons y).trans (List.Perm.swap x y t)
    · rw [if_neg hy]

theorem sortSemesters_perm (l : List (ℕ × SemRecord)) : (sortSemesters l).Perm l := by
  induction l with
  | nil => exact List.Perm.refl _
  | cons x t ih =>
    exact (insertSortedSem_perm x (sortSemesters t)).trans (ih.cons x)

theorem insertSortedSem_sorted (x : ℕ × SemRecord) (l : List (ℕ × SemRecord))
    (h : l.Pairwise (fun a b => a.1 ≤ b.1)) :
    (insertSortedSem x l).Pairwise (fun a b => a.1 ≤ b.1) := by
  induction l with
  | nil => simp [insertSortedSem]
  | cons y t ih =>
    rw [insertSortedSem]
    rcases List.pairwise_cons.mp h with ⟨hy, ht⟩
    by_cases hyx : y.1 ≤ x.1
    · rw [if_pos hyx]
      refine List.pairwise_cons.mpr ⟨?_, ih ht⟩
      intro z hz
      have := (insertSortedSem_perm x t).mem_iff.mp hz
      rcases List.mem_cons.mp this with rfl | hzt
      · exact hyx
      · exact hy z hzt
    · rw [if_neg hyx]
      refine List.pairwise_cons.mpr ⟨?_, h⟩
      intro z hz
      rcases List.mem_cons.mp hz with rfl | hzt
      · exact le_of_not_le hyx
      · exact le_trans (le_of_not_le hyx) (hy z hzt)

theorem sortSemesters_sorted (l : List (ℕ × SemRecord)) :
    (sortSemesters l).Pairwise (fun a b => a.1 ≤ b.1) := by
  induction l with
  | nil => simp [sortSemesters]
  | cons x t ih => exact insertSortedSem_sorted x (sortSemesters t) ih

theorem cumCredits_succ (s : List (ℕ × SemRecord)) (n : ℕ)
    (hnn : ∀ p ∈ s, 0 ≤ p.2.total_credits) :
    cumCredits s n ≤ cumCredits s (n + 1) := by
  by_cases hlen : n < s.length
  · rw [cumCredits, cumCredits, List.take_succ, List.map_append, List.sum_append]
    have h0 : 0 ≤ (s.get ⟨n, hlen⟩).2.total_credits := hnn _ (List.getElem_mem hlen)
    have he : s[n]? = some (s.get ⟨n, hlen⟩) := List.getElem?_eq_getElem hlen
    rw [he]
    simp only [Option.toList_some, List.map_cons, List.map_nil, List.sum_cons,
      List.sum_nil]
    linarith
  · rw [cumCredits, cumCredits, List.take_of_length_le (by omega),
      List.take_of_length_le (by omega)]

theorem cgpaLoop_get? (s : List (ℕ × SemRecord)) :
    ∀ (cc cp : ℚ) (n : ℕ),
      (cgpaLoop cc cp s).2.2.get? n =
        (s.get? n).map (fun p =>
          (p.1,
            if 0 < cc + cumCredits s (n + 1)
            then roundTo 2 ((cp + cumPoints s (n + 1)) / (cc + cumCredits s (n + 1)))
            else 0)) := by
  induction s with
  | nil => intro cc cp n; simp [cgpaLoop]
  | cons p t ih =>
    intro cc cp n
    obtain ⟨k, d⟩ := p
    cases n with
    | zero =>
      have hc : cumCredits ((k, d) :: t) 1 = d.total_credits := by
        simp [cumCredits]
      have hp : cumPoints ((k, d) :: t) 1 = d.total_points := by
        simp [cumPoints]
      simp [cgpaLoop, hc, hp]
    | succ n =>
      simp only [cgpaLoop, List.get?]
      rw [ih (cc + d.total_credits) (cp + d.total_points) n]
      have hc : cc + d.total_credits + cumCredits t (n + 1) =
          cc + cumCredits ((k, d) :: t) (n + 2) := by
        simp [cumCredits, List.take]
        ring
      have hp : cp + d.total_points + cumPoints t (n + 1) =
          cp + cumPoints ((k, d) :: t) (n + 2) := by
        simp [cumPoints, List.take]
        ring
      rw [hc, hp]

theorem cgpaLoop_totals (s : List (ℕ × SemRecord)) :
    ∀ cc cp : ℚ,
      (cgpaLoop cc cp s).1 = cc + cumCredits s s.length ∧
      (cgpaLoop cc cp s).2.1 = cp + cumPoints s s.length := by
  induction s with
  | nil => intro cc cp; simp [cgpaLoop, cumCredits, cumPoints]
  | cons p t ih =>
    intro cc cp
    obtain ⟨k, d⟩ := p
    simp only [cgpaLoop]
    obtain ⟨h1, h2⟩ := ih (cc + d.total_credits) (cp + d.total_points)
    constructor
    · rw [h1]
      simp [cumCredits, List.take]
      ring
    · rw [h2]
      simp [cumPoints, List.take]
      ring

/-- Projection of a semester entry to everything `calculate_cgpa` reads but
does not write. -/
def stripCgpa (p : ℕ × SemRecord) : ℕ × ℚ × ℚ × List (String × String) :=
  (p.1, p.2.total_credits, p.2.total_points, p.2.rest)

theorem setCgpa_proj (m : List (ℕ × SemRecord)) (k : ℕ) (c : ℚ) :
    (setCgpa m k c).map stripCgpa = m.map stripCgpa := by
  induction m with
  | nil => rfl
  | cons p t ih =>
    obtain ⟨k0, d⟩ := p
    by_cases hk : k0 = k
    · simp [setCgpa, hk, stripCgpa]
    · simp [setCgpa, hk, ih]

theorem setCgpa_keys (m : List (ℕ × SemRecord)) (k : ℕ) (c : ℚ) :
    akeys (setCgpa m k c) = akeys m := by
  induction m with
  | nil => rfl
  | cons p t ih =>
    obtain ⟨k0, d⟩ := p
    by_cases hk : k0 = k
    · simp [setCgpa, hk, akeys]
    · simp only [setCgpa, if_neg hk, akeys, List.map_cons]
      simp only [akeys] at ih
      rw [ih]

theorem alookup_setCgpa_self {m : List (ℕ × SemRecord)} {k : ℕ} {d : SemRecord} (c : ℚ)
    (h : alookup m k = some d) :
    alookup (setCgpa m k c) k = some { d with cgpa := some c } := by
  induction m with
  | nil => simp [alookup] at h
  | cons p t ih =>
    obtain ⟨k0, d0⟩ := p
    by_cases hk : k0 = k
    · subst hk
      simp [alookup] at h
      subst h
      simp [setCgpa, alookup]
    · simp only [alookup, if_neg hk] at h
      simp [setCgpa, hk, alookup, ih h]

theorem alookup_setCgpa_ne {m : List (ℕ × SemRecord)} {k k' : ℕ} (c : ℚ) (h : k' ≠ k) :
    alookup (setCgpa m k c) k' = alookup m k' := by
  induction m with
  | nil => simp [setCgpa, alookup]
  | cons p t ih =>
    obtain ⟨k0, d0⟩ := p
    by_cases hk : k0 = k
    · subst hk
      simp [setCgpa, alookup, Ne.symm h]
    · by_cases hk' : k0 = k'
      · simp [setCgpa, hk, alookup, hk', h]
      · simp [setCgpa, hk, alookup, hk', ih]

theorem foldl_setCgpa_absent {ms : List (ℕ × ℚ)} {k : ℕ}
    (h : k ∉ ms.map Prod.fst) (m : List (ℕ × SemRecord)) :
    alookup (ms.foldl (fun m kc => setCgpa m kc.1 kc.2) m) k = alookup m k := by
  induction ms generalizing m with
  | nil => rfl
  | cons kc t ih =>
    simp only [List.map_cons, List.mem_cons] at h
    push_neg at h
    rw [List.foldl_cons, ih h.2, alookup_setCgpa_ne _ h.1]

theorem foldl_setCgpa_lookup {ms : List (ℕ × ℚ)} {k : ℕ} {cg : ℚ}
    (hnd : (ms.map Prod.fst).Nodup) (hmem : (k, cg) ∈ ms) :
    ∀ (m : List (ℕ × SemRecord)) (d : SemRecord), alookup m k = some d →
      alookup (ms.foldl (fun m kc => setCgpa m kc.1 kc.2) m) k =
        some { d with cgpa := some cg } := by
  induction ms with
  | nil => simp at hmem
  | cons kc t ih =>
    intro m d hl
    simp only [List.map_cons, List.nodup_cons] at hnd
    rcases List.mem_cons.mp hmem with rfl | hmt
    · rw [List.foldl_cons]
      have hkt : k ∉ t.map Prod.fst := by simpa using hnd.1
      rw [foldl_setCgpa_absent hkt, alookup_setCgpa_self cg hl]
    · have hkne : kc.1 ≠ k := by
        intro he
        exact hnd.1 (he ▸ List.mem_map_of_mem Prod.fst hmt)
      rw [List.foldl_cons]
      exact ih hnd.2 hmt _ d (by rw [alookup_setCgpa_ne _ (Ne.symm hkne)]; exact hl)

theorem alookup_of_mem_nodup {α β : Type _} [DecidableEq α] {m : List (α × β)}
    {k : α} {v : β} (hnd : (m.map Prod.fst).Nodup) (hmem : (k, v) ∈ m) :
    alookup m k = some v := by
  induction m with
  | nil => simp at hmem
  | cons p t ih =>
    obtain ⟨k0, v0⟩ := p
    simp only [List.map_cons, List.nodup_cons] at hnd
    rcases List.mem_cons.mp hmem with he | hmt
    · obtain ⟨rfl, rfl⟩ := Prod.mk.injEq .. ▸ he
      · simp [alookup]
    · have hkne : k0 ≠ k := by
        rintro rfl
        exact hnd.1 (List.mem_map_of_mem Prod.fst hmt)
      simp only [alookup, if_neg hkne]
      exact ih hnd.2 hmt

theorem cgpaLoop_keys (s : List (ℕ × SemRecord)) :
    ∀ cc cp : ℚ, (cgpaLoop cc cp s).2.2.map Prod.fst = s.map Prod.fst := by
  induction s with
  | nil => intro cc cp; rfl
  | cons p t ih =>
    intro cc cp
    obtain ⟨k, d⟩ := p
    simp only [cgpaLoop, List.map_cons]
    rw [ih]

theorem foldl_setCgpa_proj (ms : List (ℕ × ℚ)) :
    ∀ m : List (ℕ × SemRecord),
      (ms.foldl (fun m kc => setCgpa m kc.1 kc.2) m).map stripCgpa = m.map stripCgpa := by
  induction ms with
  | nil => intro m; rfl
  | cons kc t ih =>
    intro m
    rw [List.foldl_cons, ih, setCgpa_proj]

theorem foldl_setCgpa_keys (ms : List (ℕ × ℚ)) :
    ∀ m : List (ℕ × SemRecord),
      akeys (ms.foldl (fun m kc => setCgpa m kc.1 kc.2) m) = akeys m := by
  induction ms with
  | nil => intro m; rfl
  | cons kc t ih =>
    intro m
    rw [List.foldl_cons, ih, setCgpa_keys]

/-- C3: `calculate_cgpa` processes semesters in ascending id order; with
non-negative per-semester credits the cumulative credits are monotone in the
number of semesters processed; the running CGPA assigned to the `n`-th
processed semester is the `n`-th prefix ratio rounded to two decimals (and 0
when the prefix credits are zero); the final accumulators are the full
prefix sums; and with distinct semester ids the assigned value is the one
stored on that semester's record in the returned mapping. -/
theorem calculate_cgpa_invariants (data : List (ℕ × SemRecord))
    (hnn : ∀ p ∈ data, 0 ≤ p.2.total_credits)
    (hnd : (data.map Prod.fst).Nodup) :
    (sortSemesters data).Pairwise (fun a b => a.1 ≤ b.1) ∧
    (∀ n, cumCredits (sortSemesters data) n ≤ cumCredits (sortSemesters data) (n + 1)) ∧
    (∀ n, (cgpaLoop 0 0 (sortSemesters data)).2.2.get? n =
        ((sortSemesters data).get? n).map (fun p =>
          (p.1,
            if 0 < cumCredits (sortSemesters data) (n + 1)
            then roundTo 2 (cumPoints (sortSemesters data) (n + 1) /
              cumCredits (sortSemesters data) (n + 1))
            else 0))) ∧
    ((cgpaLoop 0 0 (sortSemesters data)).1 =
        cumCredits (sortSemesters data) (sortSemesters data).length ∧
      (cgpaLoop 0 0 (sortSemesters data)).2.1 =
        cumPoints (sortSemesters data) (sortSemesters data).length) ∧
    (∀ n p, (sortSemesters data).get? n = some p →
      alookup (calculate_cgpa data).2.1 p.1 =
        some { p.2 with
          cgpa := some (if 0 < cumCredits (sortSemesters data) (n + 1)
            then roundTo 2 (cumPoints (sortSemesters data) (n + 1) /
              cumCredits (sortSemesters data) (n + 1))
            else 0) }) := by
  have hperm := sortSemesters_perm data
  have hnns : ∀ p ∈ sortSemesters data, 0 ≤ p.2.total_credits := fun p hp =>
    hnn p (hperm.mem_iff.mp hp)
  have hnds : ((sortSemesters data).map Prod.fst).Nodup :=
    (hperm.map Prod.fst).nodup_iff.mpr hnd
  refine ⟨sortSemesters_sorted data, fun n => cumCredits_succ _ n hnns,
    fun n => by simpa using cgpaLoop_get? (sortSemesters data) 0 0 n,
    ⟨by simpa using (cgpaLoop_totals (sortSemesters data) 0 0).1,
     by simpa using (cgpaLoop_totals (sortSemesters data) 0 0).2⟩, ?_⟩
  intro n p hget
  have hms : (cgpaLoop 0 0 (sortSemesters data)).2.2.get? n =
      some (p.1,
        if 0 < cumCredits (sortSemesters data) (n + 1)
        then roundTo 2 (cumPoints (sortSemesters data) (n + 1) /
          cumCredits (sortSemesters data) (n + 1))
        else 0) := by
    have := cgpaLoop_get? (sortSemesters data) 0 0 n
    rw [hget] at this
    simpa using this
  have hmem := List.get?_mem hms
  have hmsnd : ((cgpaLoop 0 0 (sortSemesters data)).2.2.map Prod.fst).Nodup := by
    rw [cgpaLoop_keys]
    exact hnds
  have hpd : p ∈ data := hperm.mem_iff.mp (List.get?_mem hget)
  have hlp : alookup data p.1 = some p.2 := by
    have : (p.1, p.2) ∈ data := by simpa using hpd
    exact alookup_of_mem_nodup hnd this
  simpa [calculate_cgpa] using
    foldl_setCgpa_lookup hmsnd hmem data p.2 hlp

/-- C3 witness: two semesters with ids out of insertion order. -/
theorem calculate_cgpa_invariants_witness :
    (sortSemesters [(2, ⟨22, 198, none, []⟩), (1, ⟨20, 160, none, []⟩)]).Pairwise
      (fun a b => a.1 ≤ b.1) :=
  (calculate_cgpa_invariants [(2, ⟨22, 198, none, []⟩), (1, ⟨20, 160, none, []⟩)]
    (by rintro p hp; fin_cases hp <;> norm_num) (by decide)).1

/-- C10: `calculate_cgpa` changes each semester record only at the `cgpa`
key: the id, `total_credits`, `total_points` and all remaining fields are
unchanged entry-by-entry (so the returned mapping is the input mapping with
only `cgpa` written), the key sequence is unchanged, and (for distinct ids)
every semester's record does receive a `cgpa` value. -/
theorem calculate_cgpa_frame (data : List (ℕ × SemRecord)) :
    (calculate_cgpa data).2.1.map stripCgpa = data.map stripCgpa ∧
    akeys (calculate_cgpa data).2.1 = akeys data ∧
    ((data.map Prod.fst).Nodup →
      ∀ p ∈ data, ∃ q : ℚ, alookup (calculate_cgpa data).2.1 p.1 =
        some { p.2 with cgpa := some q }) := by
  refine ⟨by simpa [calculate_cgpa] using
      foldl_setCgpa_proj (cgpaLoop 0 0 (sortSemesters data)).2.2 data,
    by simpa [calculate_cgpa] using
      foldl_setCgpa_keys (cgpaLoop 0 0 (sortSemesters data)).2.2 data, ?_⟩
  intro hnd p hp
  have hperm := sortSemesters_perm data
  have hnds : ((sortSemesters data).map Prod.fst).Nodup :=
    (hperm.map Prod.fst).nodup_iff.mpr hnd
  have hps : p ∈ sortSemesters data := hperm.mem_iff.mpr hp
  have hkey : p.1 ∈ (cgpaLoop 0 0 (sortSemesters data)).2.2.map Prod.fst := by
    rw [cgpaLoop_keys]
    exact List.mem_map_of_mem Prod.fst hps
  obtain ⟨kc, hkc, hfst⟩ := List.mem_map.mp hkey
  have hmsnd : ((cgpaLoop 0 0 (sortSemesters data)).2.2.map Prod.fst).Nodup := by
    rw [cgpaLoop_keys]
    exact hnds
  have hlp : alookup data p.1 = some p.2 := by
    have : (p.1, p.2) ∈ data := by simpa using hp
    exact alookup_of_mem_nodup hnd this
  refine ⟨kc.2, ?_⟩
  have hkc2 : (p.1, kc.2) ∈ (cgpaLoop 0 0 (sortSemesters data)).2.2 := by
    rw [← hfst]
    exact hkc
  have := foldl_setCgpa_lookup hmsnd hkc2 data p.2 hlp
  simpa [calculate_cgpa] using this

/-- C10 witness: the cgpa key is written for a concrete two-semester map. -/
theorem calculate_cgpa_frame_witness :
    ∃ q : ℚ, alookup (calculate_cgpa
        [(2, ⟨22, 198, none, []⟩), (1, ⟨20, 160, none, []⟩)]).2.1 2 =
      some { total_credits := 22, total_points := 198, cgpa := some q, rest := [] } :=
  (calculate_cgpa_frame [(2, ⟨22, 198, none, []⟩), (1, ⟨20, 160, none, []⟩)]).2.2
    (by decide) (2, ⟨22, 198, none, []⟩) (List.mem_cons_self _ _)

/-! ## Department aliasing: claims about `generateAliases` (C4) -/

theorem pyReplaceAux_same (old : List Char) :
    ∀ (fuel : ℕ) (l : List Char), pyReplaceAux old old fuel l = l := by
  intro fuel
  induction fuel with
  | zero => intro l; rfl
  | succ n ih =>
    intro l
    cases l with
    | nil => rfl
    | cons c cs =>
      rw [pyReplaceAux]
      by_cases h : old ≠ [] ∧ old.isPrefixOf (c :: cs)
      · rw [if_pos h]
        obtain ⟨t, ht⟩ := List.isPrefixOf_iff_prefix.mp h.2
        rw [← ht, List.drop_left, ih]
      · rw [if_neg h]
        rw [ih]

theorem pyReplace_same (s old : String) : pyReplace s old old = s := by
  simp only [pyReplace, pyReplaceAux_same]

theorem alookup_eq_of_pred {β : Type _} {m : List (String × β)} {k : String} {v0 : β}
    (hsome : (alookup m k).isSome) (hall : ∀ kv ∈ m, kv.2 = v0) :
    alookup m k = some v0 := by
  cases h : alookup m k with
  | none => rw [h] at hsome; simp at hsome
  | some v =>
    have hv : v = v0 := hall _ (alookup_mem h)
    rw [hv]

theorem aliasFold_values (code d : String) (credit : ℚ) (name : String)
    (l : List String) (st : List (String × ℚ) × List (String × String))
    (h1 : ∀ kv ∈ st.1, kv.2 = credit) (h2 : ∀ kv ∈ st.2, kv.2 = name) :
    (∀ kv ∈ (l.foldl (aliasInner code d credit name) st).1, kv.2 = credit) ∧
    (∀ kv ∈ (l.foldl (aliasInner code d credit name) st).2, kv.2 = name) := by
  have := foldl_inv (P := fun st : List (String × ℚ) × List (String × String) =>
    (∀ kv ∈ st.1, kv.2 = credit) ∧ (∀ kv ∈ st.2, kv.2 = name))
    (aliasInner code d credit name) l ?_ st ⟨h1, h2⟩
  · exact this
  · intro s a _ hs
    rw [aliasInner]
    by_cases ha : a ≠ d
    · rw [if_pos ha]
      exact ⟨mem_update_pred (mem_update_pred hs.1 rfl) rfl,
        mem_update_pred (mem_update_pred hs.2 rfl) rfl⟩
    · rw [if_neg ha]
      exact hs

theorem aliasFold_some (code d : String) (credit : ℚ) (name : String)
    (K : String) (l : List String) (st : List (String × ℚ) × List (String × String))
    (h1 : (alookup st.1 K).isSome) (h2 : (alookup st.2 K).isSome) :
    (alookup (l.foldl (aliasInner code d credit name) st).1 K).isSome ∧
    (alookup (l.foldl (aliasInner code d credit name) st).2 K).isSome := by
  have := foldl_inv (P := fun st : List (String × ℚ) × List (String × String) =>
    (alookup st.1 K).isSome ∧ (alookup st.2 K).isSome)
    (aliasInner code d credit name) l ?_ st ⟨h1, h2⟩
  · exact this
  · intro s a _ hs
    rw [aliasInner]
    by_cases ha : a ≠ d
    · rw [if_pos ha]
      exact ⟨isSome_alookup_update _ _ _ _ (isSome_alookup_update _ _ _ _ hs.1),
        isSome_alookup_update _ _ _ _ (isSome_alookup_update _ _ _ _ hs.2)⟩
    · rw [if_neg ha]
      exact hs

theorem aliasFold_present (code d : String) (credit : ℚ) (name : String)
    (alt : String) (hne : alt ≠ d) :
    ∀ (l : List String) (st : List (String × ℚ) × List (String × String)),
      alt ∈ l →
      (alookup (l.foldl (aliasInner code d credit name) st).1
        (pyReplace code d alt)).isSome ∧
      (alookup (l.foldl (aliasInner code d credit name) st).2
        (pyReplace code d alt)).isSome := by
  intro l
  induction l with
  | nil => intro st h; simp at h
  | cons a t ih =>
    intro st hmem
    rcases List.mem_cons.mp hmem with rfl | hat
    · rw [List.foldl_cons]
      apply aliasFold_some
      · rw [aliasInner, if_pos hne]
        exact isSome_alookup_update _ _ _ _ (by rw [alookup_update_self]; rfl)
      · rw [aliasInner, if_pos hne]
        exact isSome_alookup_update _ _ _ _ (by rw [alookup_update_self]; rfl)
    · rw [List.foldl_cons]
      exact ih _ hat

/-- C4 (amended): when the pre-aliasing index holds a single accepted record
whose structural parts are extractable, then after the aliasing step, for
every known department code the aliased entry (all occurrences of the
department letters substituted, as `str.replace` does) is present and maps
to that record's credit and name — including the original entry itself for
the record's own department. -/
theorem generateAliases_singleton (code : String) (credit : ℚ) (name : String)
    (y d sm t : String) (hx : extractParts code = some (y, d, sm, t)) :
    ∀ alt ∈ DEPARTMENT_CODES,
      alookup (generateAliases [(code, credit)] [(code, name)]).1
        (pyReplace code d alt) = some credit ∧
      alookup (generateAliases [(code, credit)] [(code, name)]).2
        (pyReplace code d alt) = some name := by
  intro alt halt
  have hstep : generateAliases [(code, credit)] [(code, name)] =
      DEPARTMENT_CODES.foldl (aliasInner code d credit name)
        ([(code, credit)], [(code, name)]) := by
    simp only [generateAliases, akeys, List.map_cons, List.map_nil, List.foldl_cons,
      List.foldl_nil, aliasStep, hx]
    have hc : alookup ([(code, credit)] : List (String × ℚ)) code = some credit := by
      simp [alookup]
    have hn : alookup ([(code, name)] : List (String × String)) code = some name := by
      simp [alookup]
    rw [hc, hn]
    rfl
  rw [hstep]
  have hvals := aliasFold_values code d credit name DEPARTMENT_CODES
    ([(code, credit)], [(code, name)]) (by simp) (by simp)
  have hpres : (alookup (DEPARTMENT_CODES.foldl (aliasInner code d credit name)
        ([(code, credit)], [(code, name)])).1 (pyReplace code d alt)).isSome ∧
      (alookup (DEPARTMENT_CODES.foldl (aliasInner code d credit name)
        ([(code, credit)], [(code, name)])).2 (pyReplace code d alt)).isSome := by
    by_cases hne : alt = d
    · subst hne
      rw [pyReplace_same]
      apply aliasFold_some
      · simp [alookup]
      · simp [alookup]
    · exact aliasFold_present code d credit name alt hne DEPARTMENT_CODES _ halt
  exact ⟨alookup_eq_of_pred hpres.1 hvals.1, alookup_eq_of_pred hpres.2 hvals.2⟩

/-- C4 witness: the singleton invariant at a concrete code and department. -/
theorem generateAliases_singleton_witness :
    alookup (generateAliases [("23CS3AB", 3)] [("23CS3AB", "N")]).1
      (pyReplace "23CS3AB" "CS" "ME") = some 3 ∧
    alookup (generateAliases [("23CS3AB", 3)] [("23CS3AB", "N")]).2
      (pyReplace "23CS3AB" "CS" "ME") = some "N" :=
  generateAliases_singleton "23CS3AB" 3 "N" "23" "CS" "3" "AB" (by decide)
    "ME" (by decide)

/-- C4 counterexample: with two accepted records `23CS3CSE` (credit 3, name
`A`) and `23ME3CSE` (credit 4, name `B`), the second record's aliasing pass
overwrites the first record's own entry, while the first record's `ME` alias
`23ME3MEE` keeps the first credit — so an aliased entry and its original
entry disagree in the final index, refuting the invariant. -/
theorem generateAliases_not_uniform :
    extractParts "23CS3CSE" = some ("23", "CS", "3", "CSE") ∧
    ("ME" : String) ∈ DEPARTMENT_CODES ∧
    pyReplace "23CS3CSE" "CS" "ME" = "23ME3MEE" ∧
    alookup (generateAliases [("23CS3CSE", 3), ("23ME3CSE", 4)]
      [("23CS3CSE", "A"), ("23ME3CSE", "B")]).1 "23CS3CSE" = some 4 ∧
    alookup (generateAliases [("23CS3CSE", 3), ("23ME3CSE", 4)]
      [("23CS3CSE", "A"), ("23ME3CSE", "B")]).1 "23ME3MEE" = some 3 ∧
    alookup (generateAliases [("23CS3CSE", 3), ("23ME3CSE", 4)]
      [("23CS3CSE", "A"), ("23ME3CSE", "B")]).2 "23CS3CSE" = some "B" ∧
    alookup (generateAliases [("23CS3CSE", 3), ("23ME3CSE", 4)]
      [("23CS3CSE", "A"), ("23ME3CSE", "B")]).2 "23ME3MEE" = some "A" ∧
    (3 : ℚ) ≠ 4 := by
  refine ⟨by decide, by decide, by decide, ?_, ?_, ?_, ?_, by decide⟩ <;> decide

/-! ## Similarity bounds and the fuzzy fold (claims C1, C7) -/

theorem commonPrefixLen_le (a b : List Char) :
    commonPrefixLen a b ≤ a.length ∧ commonPrefixLen a b ≤ b.length := by
  induction a generalizing b with
  | nil => cases b <;> simp [commonPrefixLen]
  | cons x xs ih =>
    cases b with
    | nil => simp [commonPrefixLen]
    | cons y ys =>
      rw [commonPrefixLen]
      by_cases hxy : x = y
      · rw [if_pos hxy]
        have := ih ys
        constructor <;> simp <;> omega
      · rw [if_neg hxy]
        constructor <;> simp

theorem suffLen_le (a b : List Char) (i j : ℕ) :
    suffLen a b i j ≤ i + 1 ∧ suffLen a b i j ≤ j + 1 := by
  have h := commonPrefixLen_le (a.take (i + 1)).reverse (b.take (j + 1)).reverse
  rw [suffLen]
  constructor
  · refine le_trans h.1 ?_
    simp [List.length_take]
  · refine le_trans h.2 ?_
    simp [List.length_take]

theorem findLongestMatch_bounds (a b : List Char) :
    (findLongestMatch a b).2.2 = 0 ∨
    ((findLongestMatch a b).1 + (findLongestMatch a b).2.2 ≤ a.length ∧
      (findLongestMatch a b).2.1 + (findLongestMatch a b).2.2 ≤ b.length) := by
  rw [findLongestMatch]
  apply foldl_inv (P := fun acc : ℕ × ℕ × ℕ =>
    acc.2.2 = 0 ∨ (acc.1 + acc.2.2 ≤ a.length ∧ acc.2.1 + acc.2.2 ≤ b.length))
  · intro s i hi hs
    apply foldl_inv (P := fun acc : ℕ × ℕ × ℕ =>
      acc.2.2 = 0 ∨ (acc.1 + acc.2.2 ≤ a.length ∧ acc.2.1 + acc.2.2 ≤ b.length))
    · intro s' j hj hs'
      by_cases hlt : s'.2.2 < suffLen a b i j
      · rw [if_pos hlt]
        right
        dsimp only
        have hia := List.mem_range.mp hi
        have hjb := List.mem_range.mp hj
        have hsl := suffLen_le a b i j
        constructor <;> omega
      · rw [if_neg hlt]
        exact hs'
    · exact hs
  · left; rfl

theorem totalMatched_le : ∀ (fuel : ℕ) (a b : List Char),
    totalMatched fuel a b ≤ min a.length b.length := by
  intro fuel
  induction fuel with
  | zero => intro a b; simp [totalMatched]
  | succ n ih =>
    intro a b
    rw [totalMatched]
    by_cases hk : (findLongestMatch a b).2.2 = 0
    · rw [if_pos hk]; simp
    · rw [if_neg hk]
      rcases findLongestMatch_bounds a b with h | ⟨ha, hb⟩
      · exact absurd h hk
      have h1 := ih (a.take (findLongestMatch a b).1) (b.take (findLongestMatch a b).2.1)
      have h2 := ih (a.drop ((findLongestMatch a b).1 + (findLongestMatch a b).2.2))
        (b.drop ((findLongestMatch a b).2.1 + (findLongestMatch a b).2.2))
      simp only [List.length_take, List.length_drop] at h1 h2
      omega

theorem similarity_mem_unit (a b : String) :
    0 ≤ similarity a b ∧ similarity a b ≤ 1 := by
  rw [similarity]
  by_cases ht : a.data.length + b.data.length = 0
  · rw [if_pos ht]; norm_num
  · rw [if_neg ht]
    have hM := totalMatched_le (a.data.length + b.data.length) a.data b.data
    have hT : (0 : ℚ) < (a.data.length + b.data.length : ℕ) := by
      have : 0 < a.data.length + b.data.length := Nat.pos_of_ne_zero ht
      exact_mod_cast this
    constructor
    · positivity
    · rw [div_le_one hT]
      have h2M : 2 * totalMatched (a.data.length + b.data.length) a.data b.data ≤
          a.data.length + b.data.length := by omega
      calc (2 : ℚ) * (totalMatched (a.data.length + b.data.length) a.data b.data : ℚ)
          = ((2 * totalMatched (a.data.length + b.data.length) a.data b.data : ℕ) : ℚ) := by
            push_cast; ring
        _ ≤ ((a.data.length + b.data.length : ℕ) : ℚ) := by exact_mod_cast h2M

theorem fuzzyFold_go (normalized sem : String) :
    ∀ (l : List String) (acc : Option String × ℚ), 0 ≤ acc.2 →
      (0 ≤ (l.foldl (fun acc code =>
          if isSubstr sem code then
            let r := similarity normalized code
            if acc.2 < r then (some code, r) else acc
          else acc) acc).2 ∧
        acc.2 ≤ (l.foldl (fun acc code =>
          if isSubstr sem code then
            let r := similarity normalized code
            if acc.2 < r then (some code, r) else acc
          else acc) acc).2) ∧
      (∀ c ∈ l, isSubstr sem c = true →
        similarity normalized c ≤ (l.foldl (fun acc code =>
          if isSubstr sem code then
            let r := similarity normalized code
            if acc.2 < r then (some code, r) else acc
          else acc) acc).2) ∧
      ((l.foldl (fun acc code =>
          if isSubstr sem code then
            let r := similarity normalized code
            if acc.2 < r then (some code, r) else acc
          else acc) acc) = acc ∨
        ∃ b ∈ l, isSubstr sem b = true ∧
          (l.foldl (fun acc code =>
            if isSubstr sem code then
              let r := similarity normalized code
              if acc.2 < r then (some code, r) else acc
            else acc) acc).1 = some b ∧
          similarity normalized b = (l.foldl (fun acc code =>
            if isSubstr sem code then
              let r := similarity normalized code
              if acc.2 < r then (some code, r) else acc
            else acc) acc).2) := by
  intro l
  induction l with
  | nil =>
    intro acc h
    exact ⟨⟨h, le_refl _⟩, by simp, Or.inl rfl⟩
  | cons c t ih =>
    intro acc hacc
    simp only [List.foldl_cons]
    by_cases hc : isSubstr sem c = true
    · rw [if_pos hc]
      by_cases hlt : acc.2 < similarity normalized c
      · rw [if_pos hlt]
        obtain ⟨⟨hr0, hrge⟩, hall, hwit⟩ :=
          ih (some c, similarity normalized c) (similarity_mem_unit normalized c).1
        refine ⟨⟨hr0, le_trans (le_of_lt hlt) hrge⟩, ?_, ?_⟩
        · intro c' hc' hsub
          rcases List.mem_cons.mp hc' with rfl | hct
          · exact hrge
          · exact hall c' hct hsub
        · rcases hwit with heq | ⟨b, hb, hsb, hb1, hb2⟩
          · exact Or.inr ⟨c, List.mem_cons_self _ _, hc, by rw [heq], by rw [heq]⟩
          · exact Or.inr ⟨b, List.mem_cons_of_mem _ hb, hsb, hb1, hb2⟩
      · rw [if_neg hlt]
        obtain ⟨⟨hr0, hrge⟩, hall, hwit⟩ := ih acc hacc
        refine ⟨⟨hr0, hrge⟩, ?_, ?_⟩
        · intro c' hc' hsub
          rcases List.mem_cons.mp hc' with rfl | hct
          · exact le_trans (le_of_not_lt hlt) hrge
          · exact hall c' hct hsub
        · rcases hwit with heq | ⟨b, hb, hsb, hb1, hb2⟩
          · exact Or.inl heq
          · exact Or.inr ⟨b, List.mem_cons_of_mem _ hb, hsb, hb1, hb2⟩
    · rw [if_neg hc]
      obtain ⟨⟨hr0, hrge⟩, hall, hwit⟩ := ih acc hacc
      refine ⟨⟨hr0, hrge⟩, ?_, ?_⟩
      · intro c' hc' hsub
        rcases List.mem_cons.mp hc' with rfl | hct
        · exact absurd hsub hc
        · exact hall c' hct hsub
      · rcases hwit with heq | ⟨b, hb, hsb, hb1, hb2⟩
        · exact Or.inl heq
        · exact Or.inr ⟨b, List.mem_cons_of_mem _ hb, hsb, hb1, hb2⟩

theorem fuzzyFold_spec (cc : List (String × ℚ)) (normalized sem : String) :
    0 ≤ (fuzzyFold cc normalized sem).2 ∧
    (∀ c ∈ akeys cc, isSubstr sem c = true →
      similarity normalized c ≤ (fuzzyFold cc normalized sem).2) ∧
    ((fuzzyFold cc normalized sem).1 = none → (fuzzyFold cc normalized sem).2 = 0) ∧
    (∀ b, (fuzzyFold cc normalized sem).1 = some b →
      b ∈ akeys cc ∧ isSubstr sem b = true ∧
        similarity normalized b = (fuzzyFold cc normalized sem).2) := by
  obtain ⟨⟨h0, _⟩, hall, hwit⟩ :=
    fuzzyFold_go normalized sem (akeys cc) (none, 0) (le_refl 0)
  refine ⟨h0, hall, ?_, ?_⟩
  · intro hnone
    rcases hwit with heq | ⟨b, _, _, hb1, _⟩
    · rw [fuzzyFold, heq]
    · rw [fuzzyFold] at hnone
      rw [hnone] at hb1
      simp at hb1
  · intro b hb
    rcases hwit with heq | ⟨b', hb', hsb', hb1, hb2⟩
    · rw [fuzzyFold, heq] at hb
      simp at hb
    · rw [fuzzyFold] at hb
      rw [hb] at hb1
      have : b' = b := by simpa using hb1.symm
      subst this
      exact ⟨hb', hsb', by rw [fuzzyFold]; exact hb2⟩

theorem find_matching_code_eq_fuzzy (subject_code : String) (cc : List (String × ℚ))
    (sn snm : List (String × String)) (data : RRecord) {y d sm t : String}
    (h1 : alookup cc (normalize_subject_code subject_code) = none)
    (h2 : fmcStep2 cc snm data = none)
    (hx : extractParts (normalize_subject_code subject_code) = some (y, d, sm, t))
    (h3 : fmcStep3 subject_code cc data = none)
    (h4 : fmcStep4 cc sn data y sm = none)
    (h5 : fmcStep5 cc (y ++ sm ++ t.take 1) = none) :
    find_matching_code subject_code cc sn snm data =
      if (1 : ℚ) / 2 < (fuzzyFold cc (normalize_subject_code subject_code) sm).2
      then (fuzzyFold cc (normalize_subject_code subject_code) sm).1
      else fmcStep7 cc sm := by
  simp only [find_matching_code, h1, Option.isSome_none, Bool.false_eq_true, if_false,
    h2, hx, h3, h4, h5]

/-- C1 (amended): `find_matching_code` returns `none` only when extraction
of the normalized result code's structural parts fails, or when no course
code has the same extracted semester component (so the last-resort fallback
also finds nothing) — extractable parts alone do not guarantee a match. -/
theorem find_matching_code_none_cases (subject_code : String)
    (cc : List (String × ℚ)) (sn snm : List (String × String)) (data : RRecord)
    (h : find_matching_code subject_code cc sn snm data = none) :
    extractParts (normalize_subject_code subject_code) = none ∨
    ∀ c ∈ akeys cc, ∀ py pd ps pt qy qd qs qt : String,
      extractParts (normalize_subject_code subject_code) = some (py, pd, ps, pt) →
      extractParts c = some (qy, qd, qs, qt) → qs ≠ ps := by
  cases hx : extractParts (normalize_subject_code subject_code) with
  | none => exact Or.inl rfl
  | some g =>
    obtain ⟨y, d, sm, t⟩ := g
    refine Or.inr ?_
    intro c hc py pd ps pt qy qd qs qt hp hq
    have hps : ps = sm := by
      have hcomp : y = py ∧ d = pd ∧ sm = ps ∧ t = pt := by simpa using hp
      exact hcomp.2.2.1.symm
    rw [hps]
    cases hl1 : alookup cc (normalize_subject_code subject_code) with
    | some v =>
      simp only [find_matching_code, hl1, Option.isSome_some, if_true] at h
      exact absurd h (Option.some_ne_none _)
    | none =>
      cases hs2 : fmcStep2 cc snm data with
      | some mc =>
        simp only [find_matching_code, hl1, Option.isSome_none, Bool.false_eq_true,
          if_false, hs2] at h
        exact absurd h (Option.some_ne_none _)
      | none =>
        cases hs3 : fmcStep3 subject_code cc data with
        | some v =>
          simp only [find_matching_code, hl1, Option.isSome_none, Bool.false_eq_true,
            if_false, hs2, hx, hs3] at h
          exact absurd h (Option.some_ne_none _)
        | none =>
          cases hs4 : fmcStep4 cc sn data y sm with
          | some v =>
            simp only [find_matching_code, hl1, Option.isSome_none, Bool.false_eq_true,
              if_false, hs2, hx, hs3, hs4] at h
            exact absurd h (Option.some_ne_none _)
          | none =>
            cases hs5 : fmcStep5 cc (y ++ sm ++ t.take 1) with
            | some v =>
              simp only [find_matching_code, hl1, Option.isSome_none, Bool.false_eq_true,
                if_false, hs2, hx, hs3, hs4, hs5] at h
              exact absurd h (Option.some_ne_none _)
            | none =>
              rw [find_matching_code_eq_fuzzy subject_code cc sn snm data hl1 hs2 hx
                hs3 hs4 hs5] at h
              by_cases hgt : (1 : ℚ) / 2 <
                  (fuzzyFold cc (normalize_subject_code subject_code) sm).2
              · rw [if_pos hgt] at h
                have h0 := (fuzzyFold_spec cc (normalize_subject_code subject_code) sm).2.2.1 h
                rw [h0] at hgt
                norm_num at hgt
              · rw [if_neg hgt] at h
                have hall := List.findSome?_eq_none_iff.mp h c hc
                rw [hq] at hall
                intro hqs
                simp [hqs] at hall

theorem fmcConcreteNone :
    find_matching_code "23CS3AB" [("99ZZ9ZZ", 1)] [("99ZZ9ZZ", "Foo")]
      [("foo", "99ZZ9ZZ")] ⟨"X", "A", "23CS3AB"⟩ = none := by
  rw [find_matching_code_eq_fuzzy "23CS3AB" [("99ZZ9ZZ", 1)] [("99ZZ9ZZ", "Foo")]
    [("foo", "99ZZ9ZZ")] ⟨"X", "A", "23CS3AB"⟩ (by decide) (by decide)
    (show extractParts (normalize_subject_code "23CS3AB") =
      some ("23", "CS", "3", "AB") by decide) (by decide) (by decide) (by decide)]
  have hfz : fuzzyFold [("99ZZ9ZZ", (1 : ℚ))] (normalize_subject_code "23CS3AB") "3" =
      (none, 0) := by decide
  rw [hfz]
  rw [if_neg (by norm_num)]
  decide

/-- C1 counterexample: a result code with extractable structural parts for
which `find_matching_code` nevertheless returns `none` (the course index
shares no semester digit), refuting "returns none only when extraction
fails". -/
theorem find_matching_code_none_with_parts :
    find_matching_code "23CS3AB" [("99ZZ9ZZ", 1)] [("99ZZ9ZZ", "Foo")]
      [("foo", "99ZZ9ZZ")] ⟨"X", "A", "23CS3AB"⟩ = none ∧
    extractParts (normalize_subject_code "23CS3AB") = some ("23", "CS", "3", "AB") :=
  ⟨fmcConcreteNone, by decide⟩

/-- C1 witness: the amended disjunction at the concrete no-match input. -/
theorem find_matching_code_none_cases_witness :
    extractParts (normalize_subject_code "23CS3AB") = none ∨
    ∀ c ∈ akeys [("99ZZ9ZZ", (1 : ℚ))], ∀ py pd ps pt qy qd qs qt : String,
      extractParts (normalize_subject_code "23CS3AB") = some (py, pd, ps, pt) →
      extractParts c = some (qy, qd, qs, qt) → qs ≠ ps :=
  find_matching_code_none_cases "23CS3AB" [("99ZZ9ZZ", 1)] [("99ZZ9ZZ", "Foo")]
    [("foo", "99ZZ9ZZ")] ⟨"X", "A", "23CS3AB"⟩ fmcConcreteNone

/-- C7: when the exact, name, keyword, structural and core-pattern stages
all fail and the structural parts are extractable, the fuzzy stage governs
`find_matching_code`: the candidates are exactly the course codes containing
the semester component as a substring, the tracked maximum bounds every
candidate's similarity (a quantity always within `[0, 1]`), any returned
best candidate attains that maximum, and the best candidate is returned if
and only if the maximum exceeds `0.5` — otherwise the matcher falls through
to the semester-only fallback. -/
theorem find_matching_code_fuzzy_stage (subject_code : String)
    (cc : List (String × ℚ)) (sn snm : List (String × String)) (data : RRecord)
    {y d sm t : String}
    (h1 : alookup cc (normalize_subject_code subject_code) = none)
    (h2 : fmcStep2 cc snm data = none)
    (hx : extractParts (normalize_subject_code subject_code) = some (y, d, sm, t))
    (h3 : fmcStep3 subject_code cc data = none)
    (h4 : fmcStep4 cc sn data y sm = none)
    (h5 : fmcStep5 cc (y ++ sm ++ t.take 1) = none) :
    (∀ a b : String, 0 ≤ similarity a b ∧ similarity a b ≤ 1) ∧
    (∀ c ∈ akeys cc, isSubstr sm c = true →
      similarity (normalize_subject_code subject_code) c ≤
        (fuzzyFold cc (normalize_subject_code subject_code) sm).2) ∧
    (∀ b, (fuzzyFold cc (normalize_subject_code subject_code) sm).1 = some b →
      b ∈ akeys cc ∧ isSubstr sm b = true ∧
        similarity (normalize_subject_code subject_code) b =
          (fuzzyFold cc (normalize_subject_code subject_code) sm).2) ∧
    ((1 : ℚ) / 2 < (fuzzyFold cc (normalize_subject_code subject_code) sm).2 →
      find_matching_code subject_code cc sn snm data =
        (fuzzyFold cc (normalize_subject_code subject_code) sm).1 ∧
      ∃ b, (fuzzyFold cc (normalize_subject_code subject_code) sm).1 = some b) ∧
    (¬ (1 : ℚ) / 2 < (fuzzyFold cc (normalize_subject_code subject_code) sm).2 →
      find_matching_code subject_code cc sn snm data = fmcStep7 cc sm) := by
  have hspec := fuzzyFold_spec cc (normalize_subject_code subject_code) sm
  have heq := find_matching_code_eq_fuzzy subject_code cc sn snm data h1 h2 hx h3 h4 h5
  refine ⟨similarity_mem_unit, hspec.2.1, hspec.2.2.2, ?_, ?_⟩
  · intro hgt
    constructor
    · rw [heq, if_pos hgt]
    · cases hb : (fuzzyFold cc (normalize_subject_code subject_code) sm).1 with
      | none =>
        have h0 := hspec.2.2.1 hb
        rw [h0] at hgt
        norm_num at hgt
      | some b => exact ⟨b, rfl⟩
  · intro hle
    rw [heq, if_neg hle]

set_option maxRecDepth 4000 in
theorem fmcFuzzyWitnessFold :
    fuzzyFold [("23CS4AB", (3 : ℚ))] (normalize_subject_code "23CS4AX") "4" =
      (some "23CS4AB", 6 / 7) := by
  have hnorm : normalize_subject_code "23CS4AX" = "23CS4AX" := by decide
  have hM : totalMatched ("23CS4AX".data.length + "23CS4AB".data.length)
      "23CS4AX".data "23CS4AB".data = 6 := by decide
  have hla : ("23CS4AX" : String).data.length = 7 := by decide
  have hlb : ("23CS4AB" : String).data.length = 7 := by decide
  have hsim : similarity "23CS4AX" "23CS4AB" = 6 / 7 := by
    rw [similarity]
    rw [hla, hlb] at hM ⊢
    rw [hM]
    norm_num
  rw [hnorm]
  simp only [fuzzyFold, akeys, List.map_cons, List.map_nil, List.foldl_cons,
    List.foldl_nil]
  rw [if_pos (show isSubstr "4" "23CS4AB" = true by decide)]
  rw [hsim]
  rw [if_pos (by norm_num)]

/-- C7 witness: a concrete instance where all earlier stages fail, the only
candidate has ratio `6/7 > 0.5`, and the matcher returns it. -/
theorem find_matching_code_fuzzy_stage_witness :
    find_matching_code "23CS4AX" [("23CS4AB", 3)] [("23CS4AB", "Foo")] []
      ⟨"Zz", "A", "23CS4AX"⟩ =
      (fuzzyFold [("23CS4AB", (3 : ℚ))] (normalize_subject_code "23CS4AX") "4").1 ∧
    (fuzzyFold [("23CS4AB", (3 : ℚ))] (normalize_subject_code "23CS4AX") "4").1 =
      some "23CS4AB" := by
  have happ := (find_matching_code_fuzzy_stage "23CS4AX" [("23CS4AB", 3)]
    [("23CS4AB", "Foo")] [] ⟨"Zz", "A", "23CS4AX"⟩ (by decide) (by decide)
    (show extractParts (normalize_subject_code "23CS4AX") =
      some ("23", "CS", "4", "AX") by decide) (by decide) (by decide)
    (by decide)).2.2.2.1 (by rw [fmcFuzzyWitnessFold]; norm_num)
  exact ⟨happ.1, by rw [fmcFuzzyWitnessFold]⟩

/-! ## Grade-table invariants of the parser and combiner (claim C5) -/

theorem stage1Step_pred {lines : List String} {subjIdxs : List ℕ}
    {subjects : List (String × RRecord)} {line_idx : ℕ} {line : String}
    (h : ∀ p ∈ subjects, (alookup GRADE_POINTS p.2.grade).isSome = true) :
    ∀ p ∈ stage1Step lines subjIdxs subjects line_idx line,
      (alookup GRADE_POINTS p.2.grade).isSome = true := by
  intro p hp
  simp only [stage1Step] at hp
  repeat' split at hp
  all_goals first
    | exact h p hp
    | exact mem_update_pred h (by assumption) p hp

theorem stage2Step_pred {lines : List String} {sj : List (String × RRecord)} {j : ℕ}
    (h : ∀ p ∈ sj, (alookup GRADE_POINTS p.2.grade).isSome = true) :
    ∀ p ∈ stage2Step lines sj j,
      (alookup GRADE_POINTS p.2.grade).isSome = true := by
  intro p hp
  simp only [stage2Step] at hp
  repeat' split at hp
  all_goals first
    | exact h p hp
    | exact mem_update_pred h (by assumption) p hp

theorem resultStage1_pred {lines : List String} {subjectLines : List (ℕ × String)}
    {subjIdxs : List ℕ} {subs : List (String × RRecord)}
    (h : ∀ p ∈ subs, (alookup GRADE_POINTS p.2.grade).isSome = true) :
    ∀ p ∈ resultStage1 lines subjectLines subjIdxs subs,
      (alookup GRADE_POINTS p.2.grade).isSome = true := by
  refine foldl_inv (P := fun s : List (String × RRecord) =>
    ∀ p ∈ s, (alookup GRADE_POINTS p.2.grade).isSome = true) _ subjectLines ?_ subs h
  intro s a _ hs
  exact stage1Step_pred hs

theorem resultStage2_pred {lines : List String} {subs : List (String × RRecord)}
    (h : ∀ p ∈ subs, (alookup GRADE_POINTS p.2.grade).isSome = true) :
    ∀ p ∈ resultStage2 lines subs,
      (alookup GRADE_POINTS p.2.grade).isSome = true := by
  refine foldl_inv (P := fun s : List (String × RRecord) =>
    ∀ p ∈ s, (alookup GRADE_POINTS p.2.grade).isSome = true) _ lines.enum ?_ subs h
  intro s a _ hs
  dsimp only
  split
  · refine foldl_inv (P := fun s : List (String × RRecord) =>
      ∀ p ∈ s, (alookup GRADE_POINTS p.2.grade).isSome = true) _ _ ?_ s hs
    intro s' j _ hs'
    exact stage2Step_pred hs'
  · exact hs

theorem resultStage3_pred {lines : List String} {subs : List (String × RRecord)}
    (h : ∀ p ∈ subs, (alookup GRADE_POINTS p.2.grade).isSome = true) :
    ∀ p ∈ resultStage3 lines subs,
      (alookup GRADE_POINTS p.2.grade).isSome = true := by
  refine foldl_inv (P := fun s : List (String × RRecord) =>
    ∀ p ∈ s, (alookup GRADE_POINTS p.2.grade).isSome = true) _ specialResultPatterns
    ?_ subs h
  intro s pat _ hs
  refine foldl_inv (P := fun s : List (String × RRecord) =>
    ∀ p ∈ s, (alookup GRADE_POINTS p.2.grade).isSome = true) _ lines ?_ s hs
  intro s' line _ hs'
  intro p hp
  dsimp only at hp
  repeat' split at hp
  all_goals first
    | exact hs' p hp
    | exact mem_update_pred hs' (by assumption) p hp

theorem resultStage4_pred {lines : List String} {subs : List (String × RRecord)}
    (h : ∀ p ∈ subs, (alookup GRADE_POINTS p.2.grade).isSome = true) :
    ∀ p ∈ resultStage4 lines subs,
      (alookup GRADE_POINTS p.2.grade).isSome = true := by
  refine foldl_inv (P := fun s : List (String × RRecord) =>
    ∀ p ∈ s, (alookup GRADE_POINTS p.2.grade).isSome = true) _ lines.enum ?_ subs h
  intro s a _ hs
  refine foldl_inv (P := fun s : List (String × RRecord) =>
    ∀ p ∈ s, (alookup GRADE_POINTS p.2.grade).isSome = true) _ resultKeywords ?_ s hs
  intro s' keyword _ hs'
  intro p hp
  dsimp only at hp
  repeat' split at hp
  all_goals first
    | exact hs' p hp
    | exact mem_update_pred hs' (by assumption) p hp

theorem parse_result_data_grades (text : String) :
    ∀ p ∈ parse_result_data text,
      (alookup GRADE_POINTS p.2.grade).isSome = true := by
  simp only [parse_result_data]
  exact resultStage4_pred (resultStage3_pred (resultStage2_pred
    (resultStage1_pred (by simp))))

theorem mkCEntry_grade_eq {g : String} (h : (alookup GRADE_POINTS g).isSome = true)
    (nm : String) (cr : ℚ) :
    alookup GRADE_POINTS (mkCEntry nm cr g).grade
      = some (mkCEntry nm cr g).grade_point := by
  obtain ⟨v, hv⟩ := Option.isSome_iff_exists.mp h
  simp [mkCEntry, hv]

theorem combinePhase1Step_pred {cc : List (String × ℚ)} {sn snm : List (String × String)}
    {acc : List (String × CEntry) × List UEntry} {p : String × RRecord}
    (hg : (alookup GRADE_POINTS p.2.grade).isSome = true)
    (h1 : ∀ e ∈ acc.1, alookup GRADE_POINTS e.2.grade = some e.2.grade_point)
    (h2 : ∀ u ∈ acc.2, (alookup GRADE_POINTS u.grade).isSome = true) :
    (∀ e ∈ (combinePhase1Step cc sn snm acc p).1,
        alookup GRADE_POINTS e.2.grade = some e.2.grade_point) ∧
    (∀ u ∈ (combinePhase1Step cc sn snm acc p).2,
        (alookup GRADE_POINTS u.grade).isSome = true) := by
  simp only [combinePhase1Step]
  split
  · exact ⟨mem_update_pred h1 (mkCEntry_grade_eq hg _ _), h2⟩
  · refine ⟨h1, ?_⟩
    intro u hu
    rcases List.mem_append.mp hu with h | h
    · exact h2 u h
    · rcases List.mem_singleton.mp h with rfl
      exact hg

theorem combinePhase2Step_pred {cc : List (String × ℚ)} {sn : List (String × String)}
    {combined : List (String × CEntry)} {u : UEntry}
    (hg : (alookup GRADE_POINTS u.grade).isSome = true)
    (h1 : ∀ e ∈ combined, alookup GRADE_POINTS e.2.grade = some e.2.grade_point) :
    ∀ e ∈ combinePhase2Step cc sn combined u,
      alookup GRADE_POINTS e.2.grade = some e.2.grade_point := by
  intro e he
  simp only [combinePhase2Step] at he
  repeat' split at he
  all_goals first
    | exact h1 e he
    | exact mem_update_pred h1 (mkCEntry_grade_eq hg _ _) e he
    | exact mem_update_pred (mem_update_pred h1 (mkCEntry_grade_eq hg _ _))
        (mkCEntry_grade_eq hg _ _) e he

theorem combine_data_grades {subjects : List (String × RRecord)}
    {cc : List (String × ℚ)} {sn snm : List (String × String)}
    (hs : ∀ p ∈ subjects, (alookup GRADE_POINTS p.2.grade).isSome = true) :
    ∀ e ∈ combine_data subjects cc sn snm,
      alookup GRADE_POINTS e.2.grade = some e.2.grade_point := by
  have hph1 := foldl_inv (P := fun st : List (String × CEntry) × List UEntry =>
      (∀ e ∈ st.1, alookup GRADE_POINTS e.2.grade = some e.2.grade_point) ∧
      (∀ u ∈ st.2, (alookup GRADE_POINTS u.grade).isSome = true))
    (combinePhase1Step cc sn snm) subjects
    (fun s a ha hsP => combinePhase1Step_pred (hs a ha) hsP.1 hsP.2)
    ([], []) (by simp)
  simp only [combine_data]
  exact foldl_inv (P := fun c : List (String × CEntry) =>
      ∀ e ∈ c, alookup GRADE_POINTS e.2.grade = some e.2.grade_point)
    (combinePhase2Step cc sn) _
    (fun s u hu hsP => combinePhase2Step_pred (hph1.2 u hu) hsP) _ hph1.1

/-- C5: a result record is only ever stored with a grade that is a key of
`GRADE_POINTS` — tokens outside the table are discarded by every stage of
`parse_result_data` — for any table key the assigned `grade_point` is exactly
the table value, and consequently every entry `combine_data` builds from
parsed records carries `grade_point = GRADE_POINTS[grade]`, never a silently
defaulted value. -/
theorem parse_combine_grades (text : String) (cc : List (String × ℚ))
    (sn snm : List (String × String)) :
    (∀ p ∈ parse_result_data text, (alookup GRADE_POINTS p.2.grade).isSome = true) ∧
    (∀ g gp, alookup GRADE_POINTS g = some gp →
      ∀ nm cr, (mkCEntry nm cr g).grade_point = gp) ∧
    (∀ e ∈ combine_data (parse_result_data text) cc sn snm,
      alookup GRADE_POINTS e.2.grade = some e.2.grade_point) :=
  ⟨parse_result_data_grades text,
   fun _ gp hg nm cr => by simp [mkCEntry, hg],
   combine_data_grades (parse_result_data_grades text)⟩

set_option maxRecDepth 8000 in
theorem parse_combine_grades_witness :
    alookup GRADE_POINTS (mkCEntry "Intro to Stuff" 4 "A").grade
      = some (mkCEntry "Intro to Stuff" 4 "A").grade_point := by
  refine (parse_combine_grades "23CS3ABC Intro to Stuff 60 55 50 A"
      [("23CS3ABC", 4)] [("23CS3ABC", "Fundamentals")] []).2.2
    ("23CS3ABC", mkCEntry "Intro to Stuff" 4 "A") ?_
  exact alookup_mem (m := combine_data
      (parse_result_data "23CS3ABC Intro to Stuff 60 55 50 A")
      [("23CS3ABC", 4)] [("23CS3ABC", "Fundamentals")] []) (by rfl)
